import Mathlib

/-!
Verification of the day-22a "falling bricks" solver
(`src/day-22a/src/main.rs`).

The Rust program is embedded shallowly:

* `Brick`, `XYPoint` mirror the structs (u16 fields become `Nat`; where u16
  arithmetic could underflow or a `HashMap` lookup could `unwrap` a `None`,
  the embedding returns `Option`/`Except`, with `none` / `.error` standing
  for a Rust panic).
* The two-level `HashMap<ZCoordinate, HashMap<XYPoint, BrickId>>` occupancy
  grid becomes an association list `Grid`.  The program only ever `get`s,
  `insert`s, `remove`s and `is_empty`-tests these maps (it never iterates
  them), so an association list with HashMap insert/remove semantics is an
  exact model.
* `HashMap` iteration order (which feeds the pre-sort brick vector and the
  initial grid construction) and the tie order of `sort_unstable_by_key`
  are unspecified in Rust; the embedding therefore takes the processing
  list and the build list as parameters, with `sortByMinZ` of the
  line-ordered list as the canonical instance.
* In `brick_could_safely_be_disintegrated` the source holds the `RefCell`
  mutably (`map.borrow_mut()`, kept alive by `grid_above` and the borrowed
  ids in `brick_ids_above`) while the closure passed to `all` calls
  `map.borrow()`.  `RefCell::borrow` panics when a mutable borrow is
  outstanding, so the function aborts whenever the set of dependents is
  non-empty; `checkDisintegrate` returns `none` in exactly that case.
-/

set_option maxRecDepth 4096

namespace Day22

/-- Mirrors `struct XYPoint { x: u16, y: u16 }`. -/
structure XYPoint where
  x : Nat
  y : Nat
deriving DecidableEq

/-- Mirrors `struct Brick` (u16 fields as `Nat`). -/
structure Brick where
  min_x : Nat
  max_x : Nat
  min_y : Nat
  max_y : Nat
  min_z : Nat
  z_range_len : Nat
deriving DecidableEq

namespace Brick

/-- `fn max_z(&self) -> u16 { self.min_z + self.z_range_len - 1 }`. -/
def max_z (b : Brick) : Nat := b.min_z + b.z_range_len - 1

/-- `fn fall_by_one(self)`: decrease `min_z` by one. -/
def fall_by_one (b : Brick) : Brick := { b with min_z := b.min_z - 1 }

/-- The list of z layers `min_z..=max_z()` spanned by the brick
(`fn z_range`); for a parsed brick `z_range_len ≥ 1` and the list has
exactly `z_range_len` elements. -/
def zList (b : Brick) : List Nat := List.range' b.min_z b.z_range_len

/-- `fn xy_points`: the footprint `iproduct!(min_x..=max_x, min_y..=max_y)`,
x-major, as in the source. -/
def fpList (b : Brick) : List XYPoint :=
  (List.range' b.min_x (b.max_x + 1 - b.min_x)).flatMap fun x =>
    (List.range' b.min_y (b.max_y + 1 - b.min_y)).map fun y => ⟨x, y⟩

/-- Set-level statement that the brick covers cell `(p, z)`. -/
def occupies (b : Brick) (p : XYPoint) (z : Nat) : Prop :=
  b.min_x ≤ p.x ∧ p.x ≤ b.max_x ∧ b.min_y ≤ p.y ∧ p.y ≤ b.max_y ∧
    b.min_z ≤ z ∧ z ≤ b.max_z

instance (b : Brick) (p : XYPoint) (z : Nat) : Decidable (b.occupies p z) := by
  unfold occupies; infer_instance

end Brick

/-- Inner map: `HashMap<XYPoint, BrickId>` as an association list. -/
abbrev Layer := List (XYPoint × Nat)

/-- Outer map: `HashMap<ZCoordinate, HashMap<XYPoint, BrickId>>`. -/
abbrev Grid := List (Nat × Layer)

/-- `HashMap::get` on a layer. -/
def layerGet : Layer → XYPoint → Option Nat
  | [], _ => none
  | e :: t, p => if e.1 = p then some e.2 else layerGet t p

/-- `HashMap::remove` on a layer. -/
def layerRemove : Layer → XYPoint → Layer
  | [], _ => []
  | e :: t, p => if e.1 = p then layerRemove t p else e :: layerRemove t p

/-- `HashMap::insert` on a layer (replace semantics). -/
def layerInsert (l : Layer) (p : XYPoint) (v : Nat) : Layer :=
  (p, v) :: layerRemove l p

/-- `HashMap::get` on the outer grid. -/
def gridGet : Grid → Nat → Option Layer
  | [], _ => none
  | e :: t, z => if e.1 = z then some e.2 else gridGet t z

/-- `HashMap::contains_key` on the outer grid. -/
def gridContains (g : Grid) (z : Nat) : Bool :=
  (gridGet g z).isSome

/-- `map.entry(z).or_default()`: create an empty layer for `z` when absent. -/
def entryOrDefault (g : Grid) (z : Nat) : Grid :=
  if gridContains g z then g else (z, []) :: g

/-- Apply `f` to the layer stored at key `z` (the effect of mutating
through `get_mut(z)` when the key is present; grid keys are unique by
construction, so modifying the first occurrence is exact). -/
def gridModify : Grid → Nat → (Layer → Layer) → Grid
  | [], _, _ => []
  | e :: t, z, f => if e.1 = z then (e.1, f e.2) :: t else e :: gridModify t z f

/-- Cell lookup through both levels. -/
def cellGet (g : Grid) (z : Nat) (p : XYPoint) : Option Nat :=
  (gridGet g z).bind fun l => layerGet l p

/-- The body of `drop_brick`'s `for point in brick.xy_points()` loop:
for each footprint point, insert the point into the layer below
(`next_z_down`) and remove it from the brick's current top layer
(`brick.max_z()`), in source order. -/
def moveCells (g : Grid) (b : Brick) (id : Nat) (nz : Nat) : Grid :=
  b.fpList.foldl
    (fun acc p =>
      gridModify (gridModify acc nz fun l => layerInsert l p id) b.max_z
        fun l => layerRemove l p)
    g

/-- The stop test of `drop_brick`'s loop on the layer below:
`!map[next_z_down].is_empty() && footprint.any(|p| map[next_z_down].contains_key(&p))`. -/
def blockedAt (b : Brick) (l : Layer) : Bool :=
  !l.isEmpty && b.fpList.any fun p => (layerGet l p).isSome

/-- The `while brick.min_z > 1` loop of `fn drop_brick`, with `fuel`
bounding the number of iterations (each iteration strictly lowers
`min_z`, so `fuel = min_z` always suffices; the `none` on exhausted fuel
is unreachable from `dropBrick`).  `none` also models the
`get_mut(&brick.max_z()).unwrap()` panic when that layer key is absent. -/
def dropGo (id : Nat) : Nat → Brick → Grid → Option (Brick × Grid)
  | 0, b, g => if b.min_z ≤ 1 then some (b, g) else none
  | fuel + 1, b, g =>
    if b.min_z ≤ 1 then some (b, g)
    else if blockedAt b ((gridGet (entryOrDefault g (b.min_z - 1)) (b.min_z - 1)).getD []) then
      some (b, entryOrDefault g (b.min_z - 1))
    else if gridContains (entryOrDefault g (b.min_z - 1)) b.max_z then
      dropGo id fuel b.fall_by_one
        (moveCells (entryOrDefault g (b.min_z - 1)) b id (b.min_z - 1))
    else none

/-- `fn drop_brick(brick_id, brick, map)`. -/
def dropBrick (id : Nat) (b : Brick) (g : Grid) : Option (Brick × Grid) :=
  dropGo id b.min_z b g

/-- Settle a list of bricks in order, threading the grid (the settling
effect of the `bricks.iter().map(drop_brick ...)` pass). -/
def settleAll : List (Nat × Brick) → Grid → Option (List (Nat × Brick) × Grid)
  | [], g => some ([], g)
  | (id, b) :: rest, g =>
    (dropBrick id b g).bind fun r =>
      (settleAll rest r.2).bind fun r2 => some ((id, r.1) :: r2.1, r2.2)

/-- `fn has_two_or_more_bricks_below`.  `none` models the panics:
`brick.min_z - 1` underflowing u16 `0`, and
`map.get(&(brick.min_z - 1)).unwrap()` on an absent layer.  The source's
early `return true` as soon as the id set exceeds one element is
equivalent to testing whether the final number of distinct ids found
under the footprint is at least two. -/
def hasTwoOrMoreBricksBelow (b : Brick) (g : Grid) : Option Bool :=
  if b.min_z = 0 then none
  else
    match gridGet g (b.min_z - 1) with
    | none => none
    | some gridBelow =>
      some (1 < ((b.fpList.filterMap fun p => layerGet gridBelow p).dedup).length)

/-- The distinct dependent ids collected by
`fn brick_could_safely_be_disintegrated`: ids occupying the brick's
footprint in the layer `max_z() + 1` (empty when that layer key is
absent). -/
def dependentIds (b : Brick) (g : Grid) : List Nat :=
  match gridGet g (b.max_z + 1) with
  | none => []
  | some gridAbove => (b.fpList.filterMap fun p => layerGet gridAbove p).dedup

/-- `fn brick_could_safely_be_disintegrated`.  When `brick_ids_above` is
non-empty the closure passed to `all` evaluates `map.borrow()` while the
function's own `map.borrow_mut()` guard (kept alive through `grid_above`
and the borrowed ids) is still outstanding, so `RefCell` panics with a
`BorrowError`; `none` models that abort.  The `idm` parameter mirrors
`id_to_brick_map`, which the aborted branch would have consulted. -/
def checkDisintegrate (b : Brick) (g : Grid) (idm : List (Nat × Brick)) :
    Option Bool :=
  match gridGet g (b.max_z + 1) with
  | none => some true
  | some _ =>
    let _ := idm
    if (dependentIds b g).isEmpty then some true else none

/-- The `for brick in bricks` loop of `fn solve`: the iterator is a lazy
`map`, so each brick is dropped and then immediately queried before the
next brick is dropped. -/
def solveLoop : List (Nat × Brick) → Grid → List (Nat × Brick) → Option Nat
  | [], _, _ => some 0
  | (id, b) :: rest, g, idm =>
    (dropBrick id b g).bind fun r =>
      (checkDisintegrate r.1 r.2 idm).bind fun safe =>
        (solveLoop rest r.2 idm).map fun n => (if safe then 1 else 0) + n

/-! ### Parsing (`impl FromStr for Brick`, `impl FromStr for PuzzleInput`) -/

/-- `str::split(c)` on a character, as a list of character lists
(`"".split(c)` yields one empty piece, as in Rust). -/
def splitChar (c : Char) : List Char → List (List Char)
  | [] => [[]]
  | x :: xs =>
    if x = c then [] :: splitChar c xs
    else
      match splitChar c xs with
      | [] => [[x]]
      | y :: ys => (x :: y) :: ys

/-- `u16::from_str`: an optional `+` sign, then one or more decimal
digits, value at most `65535`. -/
def parseU16 (cs : List Char) : Option Nat :=
  let ds := match cs with
    | '+' :: rest => rest
    | _ => cs
  if ds.isEmpty then none
  else if ds.all Char.isDigit then
    let v := ds.foldl (fun a c => a * 10 + (c.toNat - 48)) 0
    if v ≤ 65535 then some v else none
  else none

/-- `impl FromStr for Brick` on the line's characters: split on `~` into
exactly two pieces, each splitting on `,` into exactly three numeric
fields; extents are normalized with `min`/`max`. -/
def Brick.fromChars (cs : List Char) : Except String Brick :=
  match splitChar '~' cs with
  | [left, right] =>
    match splitChar ',' left with
    | [a0, b0, c0] =>
      match parseU16 a0, parseU16 b0, parseU16 c0 with
      | some x0, some y0, some z0 =>
        match splitChar ',' right with
        | [a1, b1, c1] =>
          match parseU16 a1, parseU16 b1, parseU16 c1 with
          | some x1, some y1, some z1 =>
            .ok
              { min_x := min x0 x1, max_x := max x0 x1
                min_y := min y0 y1, max_y := max y0 y1
                min_z := min z0 z1
                z_range_len := max z0 z1 - min z0 z1 + 1 }
          | _, _, _ => .error "numeric field"
        | _ => .error "right-hand commas"
      | _, _, _ => .error "numeric field"
    | _ => .error "left-hand commas"
  | _ => .error "tilde"

/-- `impl FromStr for Brick` on a string. -/
def Brick.fromStr (s : String) : Except String Brick :=
  Brick.fromChars s.data

/-- `str::lines`: split on `'\n'`; every piece except the last was
newline-terminated and loses one trailing `'\r'`; a final empty piece
(from a terminal newline) is dropped. -/
def rustLinesGo : List (List Char) → List (List Char)
  | [] => []
  | [last] => if last.isEmpty then [] else [last]
  | piece :: rest =>
    (if piece.getLast? = some '\r' then piece.dropLast else piece) ::
      rustLinesGo rest

/-- The lines of the input string, as Rust's `str::lines` yields them. -/
def rustLines (s : String) : List (List Char) :=
  rustLinesGo (splitChar '\n' s.data)

/-- The line loop of `impl FromStr for PuzzleInput`: lines are parsed in
order into `(index, brick)` pairs; the `i.try_into()?` conversion of the
line index to `u16` fails above `65535`; the first error aborts the
whole parse. -/
def parseLinesFrom : Nat → List (List Char) → Except String (List (Nat × Brick))
  | _, [] => .ok []
  | i, l :: ls =>
    if i ≤ 65535 then
      match Brick.fromChars l with
      | .ok b => (parseLinesFrom (i + 1) ls).map fun rest => (i, b) :: rest
      | .error e => .error e
    else .error "line index exceeds u16"

/-- `impl FromStr for PuzzleInput`, id-to-brick part: the `HashMap` is
represented by this line-ordered association list (its unspecified
iteration orders are modelled as permutations of it). -/
def parsePuzzle (s : String) : Except String (List (Nat × Brick)) :=
  parseLinesFrom 0 (rustLines s)

/-- Record one brick into the occupancy grid (the inner loops of
`PuzzleInput::from_str`): for each z layer of the brick create the layer
if needed, then claim every footprint cell. -/
def addBrick (g : Grid) (e : Nat × Brick) : Grid :=
  e.2.zList.foldl
    (fun acc z =>
      e.2.fpList.foldl (fun acc2 p => gridModify acc2 z fun l => layerInsert l p e.1)
        (entryOrDefault acc z))
    g

/-- Build the initial `coord_to_brick_map` by iterating the id-to-brick
map in the given order. -/
def buildGrid (l : List (Nat × Brick)) : Grid :=
  l.foldl addBrick []

/-- Stable insertion by `min_z` (used to model `sort_unstable_by_key`;
on keys without ties every sorted permutation equals this result). -/
def insertByMinZ (e : Nat × Brick) : List (Nat × Brick) → List (Nat × Brick)
  | [] => [e]
  | x :: xs =>
    if e.2.min_z ≤ x.2.min_z then e :: x :: xs else x :: insertByMinZ e xs

/-- Sort the brick list ascending by `min_z` (stable). -/
def sortByMinZ (l : List (Nat × Brick)) : List (Nat × Brick) :=
  l.foldr insertByMinZ []

/-- `fn solve` with the canonical (line-ordered) `HashMap` iteration
order: parse, build the grid, sort by `min_z`, then run the interleaved
drop-and-query loop.  `none` models a panic anywhere in the run
(including the `.unwrap()` on a parse error). -/
def solveCanonical (s : String) : Option Nat :=
  match parsePuzzle s with
  | .error _ => none
  | .ok idm => solveLoop (sortByMinZ idm) (buildGrid idm) idm

/-- The strictly two-phase variant that claim C3 describes: settle every
brick first, then run every support query against the final grid. -/
def twoPhaseLoop (settled : List (Nat × Brick)) (g : Grid)
    (idm : List (Nat × Brick)) : Option Nat :=
  settled.foldl
    (fun acc e =>
      acc.bind fun n =>
        (checkDisintegrate e.2 g idm).map fun safe => (if safe then 1 else 0) + n)
    (some 0)

/-- `solveCanonical`, but with all settling completed before the first
support query. -/
def twoPhaseSolve (s : String) : Option Nat :=
  match parsePuzzle s with
  | .error _ => none
  | .ok idm =>
    match settleAll (sortByMinZ idm) (buildGrid idm) with
    | none => none
    | some (settled, g) => twoPhaseLoop settled g idm

/-! ### The specification's notion of safe removability

The spec (§2, §4.2–4.3, §6) describes the intended computation: settle
every brick under gravity (each brick comes to rest one layer above the
highest already-settled brick whose footprint overlaps its own, or on
the floor), then count the bricks whose removal would leave every brick
resting on them with at least one other support.  These definitions
follow the spec's words and serve as the reference point the program's
output is compared against. -/

/-- Whether the footprints (x/y extents) of two bricks intersect. -/
def fpOverlap (a b : Brick) : Bool :=
  decide (a.min_x ≤ b.max_x ∧ b.min_x ≤ a.max_x ∧
    a.min_y ≤ b.max_y ∧ b.min_y ≤ a.max_y)

/-- Modelled from the spec (§4.2 Gravity Simulator): a brick comes to
rest one layer above the highest top surface among already-settled
bricks whose footprint overlaps its own, or at `z = 1` on the floor. -/
def specSettleOne (settled : List (Nat × Brick)) (e : Nat × Brick) :
    Nat × Brick :=
  let tops := settled.filterMap fun c =>
    if fpOverlap c.2 e.2 then some c.2.max_z else none
  (e.1, { e.2 with min_z := tops.foldl max 0 + 1 })

/-- Modelled from the spec (§4.2): settle the bricks one at a time,
lowest first. -/
def specSettleAll (l : List (Nat × Brick)) : List (Nat × Brick) :=
  l.foldl (fun acc e => acc ++ [specSettleOne acc e]) []

/-- Brick `c` directly supports brick `d`: `d` rests on `c`'s top
surface with overlapping footprints. -/
def specSupports (c d : Brick) : Bool :=
  (c.max_z + 1 = d.min_z) && fpOverlap c d

/-- Modelled from the spec (§4.3 Support Analysis): a settled brick is
safely removable when every brick resting on it has at least two
distinct supporters. -/
def specSafe (settled : List (Nat × Brick)) (e : Nat × Brick) : Bool :=
  settled.all fun d =>
    !(specSupports e.2 d.2) ||
      2 ≤ (settled.filter fun c => specSupports c.2 d.2).length

/-- Modelled from the spec (§2, §6): the number the program is meant to
print — the count of settled bricks that are safely removable. -/
def specSafeCount (s : String) : Option Nat :=
  match parsePuzzle s with
  | .error _ => none
  | .ok idm =>
    let settled := specSettleAll (sortByMinZ idm)
    some (settled.filter (specSafe settled)).length

/-- The well-known 7-brick example reproduced in the spec (§8). -/
def exampleInput : String :=
  "1,0,1~1,2,1\n0,0,2~2,0,2\n0,2,3~2,2,3\n0,0,4~0,2,4\n2,0,5~2,2,5\n0,1,6~2,1,6\n1,1,8~1,1,9"

/-! ### Predicates used to state the claims -/

/-- The claim C8 notion of a well-formed brick line: exactly two triples
of parseable numeric fields joined by a single `~`, with exactly two
commas on each side (all three fields of each triple parse as `u16`). -/
def wellFormedLine (cs : List Char) : Bool :=
  match splitChar '~' cs with
  | [left, right] =>
    match splitChar ',' left with
    | [a0, b0, c0] =>
      match parseU16 a0, parseU16 b0, parseU16 c0 with
      | some _, some _, some _ =>
        match splitChar ',' right with
        | [a1, b1, c1] =>
          match parseU16 a1, parseU16 b1, parseU16 c1 with
          | some _, some _, some _ => true
          | _, _, _ => false
        | _ => false
      | _, _, _ => false
    | _ => false
  | _ => false

/-- The brick list is ordered ascending by `min_z` (what
`sort_unstable_by_key(|(_, brick)| brick.min_z)` guarantees). -/
def SortedByMinZ (l : List (Nat × Brick)) : Prop :=
  l.Pairwise fun a b => a.2.min_z ≤ b.2.min_z

instance (l : List (Nat × Brick)) : Decidable (SortedByMinZ l) := by
  unfold SortedByMinZ; infer_instance

/-- Structural well-formedness guaranteed for every parsed brick:
normalized extents and a positive height. -/
def BrickWF (b : Brick) : Prop :=
  b.min_x ≤ b.max_x ∧ b.min_y ≤ b.max_y ∧ 1 ≤ b.z_range_len

instance (b : Brick) : Decidable (BrickWF b) := by
  unfold BrickWF; infer_instance

/-- Two bricks share no cell. -/
def BrickDisj (a b : Brick) : Prop :=
  ∀ p z, ¬(a.occupies p z ∧ b.occupies p z)

instance (a b : Brick) : Decidable (BrickDisj a b) :=
  decidable_of_iff
    (¬(max a.min_x b.min_x ≤ min a.max_x b.max_x ∧
        max a.min_y b.min_y ≤ min a.max_y b.max_y ∧
        max a.min_z b.min_z ≤ min a.max_z b.max_z)) <| by
    constructor
    · rintro h p z ⟨⟨hax1, hax2, hay1, hay2, haz1, haz2⟩,
        hbx1, hbx2, hby1, hby2, hbz1, hbz2⟩
      exact h ⟨le_trans (max_le hax1 hbx1) (le_min hax2 hbx2),
        le_trans (max_le hay1 hby1) (le_min hay2 hby2),
        le_trans (max_le haz1 hbz1) (le_min haz2 hbz2)⟩
    · intro h hle
      obtain ⟨hx, hy, hz⟩ := hle
      exact h ⟨max a.min_x b.min_x, max a.min_y b.min_y⟩
        (max a.min_z b.min_z)
        ⟨⟨le_max_left _ _, le_trans hx (min_le_left _ _), le_max_left _ _,
            le_trans hy (min_le_left _ _), le_max_left _ _,
            le_trans hz (min_le_left _ _)⟩,
          le_max_right _ _, le_trans hx (min_le_right _ _),
          le_max_right _ _, le_trans hy (min_le_right _ _),
          le_max_right _ _, le_trans hz (min_le_right _ _)⟩

/-- Every pair of distinct list entries is cell-disjoint. -/
def PairwiseDisj (l : List (Nat × Brick)) : Prop :=
  l.Pairwise fun a b => BrickDisj a.2 b.2

instance (l : List (Nat × Brick)) : Decidable (PairwiseDisj l) := by
  unfold PairwiseDisj; infer_instance

/-- The grid records every cell of every configured brick under that
brick's id (the key grid/bricks coupling invariant of the settling
pass). -/
def Represents (g : Grid) (cfg : List (Nat × Brick)) : Prop :=
  ∀ e ∈ cfg, ∀ p z, e.2.occupies p z → cellGet g z p = some e.1

/-- Two grids are observationally equal for the program: same outer key
set and same cell contents. -/
def GridEquiv (g₁ g₂ : Grid) : Prop :=
  (∀ z, gridContains g₁ z = gridContains g₂ z) ∧
    ∀ z p, cellGet g₁ z p = cellGet g₂ z p

/-- Relates two `drop_brick` outcomes: both panic, or both return the
same brick with observationally equal grids. -/
def OResultEquiv : Option (Brick × Grid) → Option (Brick × Grid) → Prop
  | none, none => True
  | some r₁, some r₂ => r₁.1 = r₂.1 ∧ GridEquiv r₁.2 r₂.2
  | _, _ => False

/-- The staged reformulation of the run used by claim C3: the `i`-th
support query is evaluated against the grid obtained by settling exactly
the first `i + 1` bricks (later bricks still at their parsed positions),
and the printed answer counts the `true` queries. -/
def stagedAnswer (l : List (Nat × Brick)) (g : Grid)
    (idm : List (Nat × Brick)) : Option Nat :=
  ((List.range l.length).mapM fun i =>
      (settleAll (l.take (i + 1)) g).bind fun r =>
        match (r.1.map Prod.snd).getLast? with
        | none => none
        | some b => checkDisintegrate b r.2 idm).map
    fun results => (results.filter id).length

/-! ### Concrete inputs used as counterexamples -/

/-- Two bricks input for claim C3: a settled floor brick `F` and a brick
`G` that ends up resting on it. -/
def fgInput : String := "0,1,6~2,1,6\n1,1,8~1,1,9"

/-- Input with two identical one-cell bricks (used for claim C5). -/
def dupInput : String := "0,0,1~0,0,1\n0,0,1~0,0,1"

/-- A single brick already resting on the ground at `z = 0` (used for
claim C4). -/
def zeroInput : String := "0,0,0~0,0,0"

/-- Input with two overlapping bricks tied on `min_z` plus a probe brick
(used for claim C10). -/
def c10Input : String := "0,0,2~0,0,2\n0,0,2~0,0,3\n0,0,4~0,0,4"

/-- The parsed bricks of `c10Input`. -/
def c10Bricks : List (Nat × Brick) :=
  [(0, ⟨0, 0, 0, 0, 2, 1⟩), (1, ⟨0, 0, 0, 0, 2, 2⟩), (2, ⟨0, 0, 0, 0, 4, 1⟩)]

/-- The other legal processing order of `c10Bricks` (also sorted by
`min_z`, since the first two bricks tie). -/
def c10Swapped : List (Nat × Brick) :=
  [(1, ⟨0, 0, 0, 0, 2, 2⟩), (0, ⟨0, 0, 0, 0, 2, 1⟩), (2, ⟨0, 0, 0, 0, 4, 1⟩)]

/-- A settled one-cell brick at `z = 1` used in the C9 counterexample. -/
def c9Brick : Brick := ⟨0, 0, 0, 0, 1, 1⟩

/-- The dependent brick of the C9 counterexample: a 2×1 footprint at
`z = 2` resting on two distinct supports. -/
def c9Dependent : Brick := ⟨0, 1, 0, 0, 2, 1⟩

/-- A grid in which brick id 1 sits directly above `c9Brick` and has two
distinct brick ids (7 and 8) in the layer below its own footprint. -/
def c9Grid : Grid :=
  [(2, [(⟨0, 0⟩, 1)]), (1, [(⟨0, 0⟩, 7), (⟨1, 0⟩, 8)])]

/-- The id-to-brick map of the C9 counterexample. -/
def c9IdMap : List (Nat × Brick) := [(1, c9Dependent)]

/-- The parsed bricks of `fgInput`. -/
def fgBricks : List (Nat × Brick) := (parsePuzzle fgInput).toOption.getD []

/-- The sorted processing order for `fgInput`. -/
def fgSorted : List (Nat × Brick) := sortByMinZ fgBricks

/-- The initial occupancy grid for `fgInput`. -/
def fgGrid0 : Grid := buildGrid fgBricks

/-- The settled bricks and final grid for `fgInput`. -/
def fgSettledPair : List (Nat × Brick) × Grid :=
  (settleAll fgSorted fgGrid0).getD ([], [])

/-! ## Basic lemmas about the map model -/

theorem layerGet_layerRemove (l : Layer) (p : XYPoint) (q : XYPoint) :
    layerGet (layerRemove l p) q = if q = p then none else layerGet l q := by
  induction l with
  | nil => by_cases hqp : q = p <;> simp [layerRemove, layerGet, hqp]
  | cons e t ih =>
    by_cases hep : e.1 = p
    · by_cases hqp : q = p
      · subst hqp; simp [layerRemove, hep, ih]
      · have heq : ¬(e.1 = q) := by rw [hep]; exact fun hh => hqp hh.symm
        have hpq : ¬(p = q) := fun hh => hqp hh.symm
        simp [layerRemove, hep, ih, hqp, layerGet, heq, hpq]
    · by_cases heq : e.1 = q
      · have hqp : ¬(q = p) := by rw [← heq]; exact hep
        simp [layerRemove, hep, layerGet, heq, hqp]
      · simp [layerRemove, hep, layerGet, heq, ih]

theorem layerGet_layerInsert (l : Layer) (p : XYPoint) (v : Nat) (q : XYPoint) :
    layerGet (layerInsert l p v) q = if q = p then some v else layerGet l q := by
  unfold layerInsert
  by_cases hqp : q = p
  · subst hqp; simp [layerGet]
  · have hpq : ¬(p = q) := fun hh => hqp hh.symm
    rw [layerGet, if_neg hpq, layerGet_layerRemove, if_neg hqp, if_neg hqp]

theorem layerGet_nil_of_isEmpty (l : Layer) (h : l.isEmpty = true)
    (p : XYPoint) : layerGet l p = none := by
  cases l with
  | nil => rfl
  | cons e t => simp at h

theorem isEmpty_false_of_layerGet (l : Layer) (p : XYPoint)
    (h : (layerGet l p).isSome = true) : l.isEmpty = false := by
  cases l with
  | nil => simp [layerGet] at h
  | cons e t => rfl

/-- A non-empty layer's first entry is found by `layerGet`. -/
theorem layer_head_get (e : XYPoint × Nat) (t : Layer) :
    (layerGet (e :: t) e.1).isSome = true := by
  simp [layerGet]

theorem gridGet_entryOrDefault (g : Grid) (z w : Nat) :
    gridGet (entryOrDefault g z) w =
      if gridContains g z = true then gridGet g w
      else if w = z then some [] else gridGet g w := by
  unfold entryOrDefault
  by_cases h : gridContains g z = true
  · simp [h]
  · by_cases hwz : w = z
    · subst hwz; simp [h, gridGet]
    · have hzw : ¬(z = w) := fun hh => hwz hh.symm
      simp [h, gridGet, hzw, hwz]

theorem cellGet_entryOrDefault (g : Grid) (z w : Nat) (p : XYPoint) :
    cellGet (entryOrDefault g z) w p = cellGet g w p := by
  unfold cellGet
  rw [gridGet_entryOrDefault]
  by_cases h : gridContains g z = true
  · simp [h]
  · by_cases hwz : w = z
    · subst hwz
      have hnone : gridGet g w = none := by
        unfold gridContains at h
        cases hh : gridGet g w
        · rfl
        · simp [hh] at h
      simp [h, hnone, layerGet]
    · simp [h, hwz]

theorem gridContains_entryOrDefault (g : Grid) (z w : Nat) :
    gridContains (entryOrDefault g z) w =
      (gridContains g w || decide (w = z)) := by
  unfold gridContains
  rw [gridGet_entryOrDefault]
  by_cases h : (gridGet g z).isSome = true
  · have h' : gridContains g z = true := h
    rw [if_pos h']
    by_cases hwz : w = z
    · subst hwz; simp [h]
    · simp [hwz]
  · have h' : ¬(gridContains g z = true) := h
    rw [if_neg h']
    by_cases hwz : w = z
    · subst hwz; simp
    · simp [hwz]

theorem gridContains_entryOrDefault_self (g : Grid) (z : Nat) :
    gridContains (entryOrDefault g z) z = true := by
  rw [gridContains_entryOrDefault]; simp

theorem entryOrDefault_of_contains (g : Grid) (z : Nat)
    (h : gridContains g z = true) : entryOrDefault g z = g := by
  unfold entryOrDefault; simp [h]

theorem gridGet_gridModify (g : Grid) (z : Nat) (f : Layer → Layer) (w : Nat) :
    gridGet (gridModify g z f) w =
      if w = z then (gridGet g z).map f else gridGet g w := by
  induction g with
  | nil => by_cases hwz : w = z <;> simp [gridModify, gridGet, hwz]
  | cons e t ih =>
    by_cases hez : e.1 = z
    · by_cases hwz : w = z
      · subst hwz
        simp [gridModify, hez, gridGet]
      · have hzw : ¬(z = w) := fun hh => hwz hh.symm
        have hew : ¬(e.1 = w) := by rw [hez]; exact hzw
        simp [gridModify, hez, gridGet, hew, hwz, hzw]
    · by_cases hew : e.1 = w
      · have hwz : ¬(w = z) := by rw [← hew]; exact hez
        simp [gridModify, hez, gridGet, hew, hwz]
      · by_cases hwz : w = z
        · subst hwz; simp [gridModify, hez, gridGet, hew, ih]
        · simp [gridModify, hez, gridGet, hew, hwz, ih]

theorem gridContains_gridModify (g : Grid) (z : Nat) (f : Layer → Layer)
    (w : Nat) : gridContains (gridModify g z f) w = gridContains g w := by
  unfold gridContains
  rw [gridGet_gridModify]
  by_cases hwz : w = z
  · subst hwz; simp
  · simp [hwz]

/-! ## Effect of `moveCells` (one layer descent of `drop_brick`) -/

theorem cellGet_isSome_contains (g : Grid) (z : Nat) (p : XYPoint)
    (h : (cellGet g z p).isSome = true) : gridContains g z = true := by
  unfold cellGet at h
  unfold gridContains
  cases hh : gridGet g z
  · rw [hh] at h; simp at h
  · rfl

theorem cellGet_modify_remove (g : Grid) (mz : Nat) (p : XYPoint) (w : Nat)
    (q : XYPoint) :
    cellGet (gridModify g mz fun l => layerRemove l p) w q =
      if w = mz ∧ q = p then none else cellGet g w q := by
  unfold cellGet
  rw [gridGet_gridModify]
  by_cases hwm : w = mz
  · subst hwm
    cases hg : gridGet g w
    · simp
    · by_cases hqp : q = p <;> simp [layerGet_layerRemove, hqp]
  · simp [hwm]

theorem cellGet_modify_insert (g : Grid) (nz : Nat) (id : Nat) (p : XYPoint)
    (w : Nat) (q : XYPoint) :
    cellGet (gridModify g nz fun l => layerInsert l p id) w q =
      if w = nz ∧ q = p then (if gridContains g nz then some id else none)
      else cellGet g w q := by
  unfold cellGet gridContains
  rw [gridGet_gridModify]
  by_cases hwn : w = nz
  · subst hwn
    cases hg : gridGet g w
    · simp
    · by_cases hqp : q = p <;> simp [layerGet_layerInsert, hqp]
  · simp [hwn]

theorem cellGet_step (g : Grid) (nz mz : Nat) (id : Nat) (p : XYPoint)
    (w : Nat) (q : XYPoint) :
    cellGet
        (gridModify (gridModify g nz fun l => layerInsert l p id) mz
          fun l => layerRemove l p) w q =
      if q = p then
        (if w = mz then none
         else if w = nz then (if gridContains g nz then some id else none)
         else cellGet g w q)
      else cellGet g w q := by
  rw [cellGet_modify_remove, cellGet_modify_insert]
  by_cases hqp : q = p <;> by_cases hwm : w = mz <;> by_cases hwn : w = nz <;>
    simp [hqp, hwm, hwn]

theorem gridContains_step (g : Grid) (nz mz : Nat) (id : Nat) (p : XYPoint)
    (w : Nat) :
    gridContains
        (gridModify (gridModify g nz fun l => layerInsert l p id) mz
          fun l => layerRemove l p) w = gridContains g w := by
  rw [gridContains_gridModify, gridContains_gridModify]

theorem cellGet_moveFold (ps : List XYPoint) (g : Grid) (nz mz : Nat)
    (id : Nat) (w : Nat) (q : XYPoint) :
    cellGet
        (ps.foldl
          (fun acc p =>
            gridModify (gridModify acc nz fun l => layerInsert l p id) mz
              fun l => layerRemove l p)
          g) w q =
      if q ∈ ps then
        (if w = mz then none
         else if w = nz then (if gridContains g nz then some id else none)
         else cellGet g w q)
      else cellGet g w q := by
  induction ps generalizing g with
  | nil => simp
  | cons p ps ih =>
    rw [List.foldl_cons, ih]
    by_cases hqps : q ∈ ps
    · rw [if_pos hqps, if_pos (List.mem_cons_of_mem p hqps)]
      rw [gridContains_step, cellGet_step]
      by_cases hwm : w = mz
      · simp [hwm]
      · by_cases hwn : w = nz
        · simp [hwm, hwn]
        · by_cases hqp : q = p <;> simp [hwm, hwn, hqp]
    · rw [if_neg hqps, cellGet_step]
      by_cases hqp : q = p
      · subst hqp
        rw [if_pos rfl, if_pos (List.mem_cons_self q ps)]
      · have : ¬(q ∈ p :: ps) := by
          intro hmem
          rcases List.mem_cons.mp hmem with h1 | h2
          · exact hqp h1
          · exact hqps h2
        rw [if_neg hqp, if_neg this]

theorem gridContains_moveFold (ps : List XYPoint) (g : Grid) (nz mz : Nat)
    (id : Nat) (w : Nat) :
    gridContains
        (ps.foldl
          (fun acc p =>
            gridModify (gridModify acc nz fun l => layerInsert l p id) mz
              fun l => layerRemove l p)
          g) w = gridContains g w := by
  induction ps generalizing g with
  | nil => rfl
  | cons p ps ih => rw [List.foldl_cons, ih, gridContains_step]

theorem cellGet_moveCells (g : Grid) (b : Brick) (id : Nat) (nz : Nat)
    (w : Nat) (q : XYPoint) :
    cellGet (moveCells g b id nz) w q =
      if q ∈ b.fpList then
        (if w = b.max_z then none
         else if w = nz then (if gridContains g nz then some id else none)
         else cellGet g w q)
      else cellGet g w q :=
  cellGet_moveFold b.fpList g nz b.max_z id w q

theorem gridContains_moveCells (g : Grid) (b : Brick) (id : Nat) (nz : Nat)
    (w : Nat) : gridContains (moveCells g b id nz) w = gridContains g w :=
  gridContains_moveFold b.fpList g nz b.max_z id w

/-! ## Properties of `dropGo` / `dropBrick` -/

theorem fpList_fall (b : Brick) : b.fall_by_one.fpList = b.fpList := rfl

theorem dropGo_shape (id : Nat) (fuel : Nat) (b : Brick) (g : Grid)
    (b' : Brick) (g' : Grid) (h : dropGo id fuel b g = some (b', g')) :
    b'.min_x = b.min_x ∧ b'.max_x = b.max_x ∧ b'.min_y = b.min_y ∧
      b'.max_y = b.max_y ∧ b'.z_range_len = b.z_range_len ∧
      b'.min_z ≤ b.min_z := by
  induction fuel generalizing b g with
  | zero =>
    simp only [dropGo] at h
    by_cases h1 : b.min_z ≤ 1
    · rw [if_pos h1] at h
      injection h with h2
      injection h2 with hb hg
      subst hb
      exact ⟨rfl, rfl, rfl, rfl, rfl, le_refl _⟩
    · rw [if_neg h1] at h; cases h
  | succ fuel ih =>
    simp only [dropGo] at h
    by_cases h1 : b.min_z ≤ 1
    · rw [if_pos h1] at h
      injection h with h2
      injection h2 with hb hg
      subst hb
      exact ⟨rfl, rfl, rfl, rfl, rfl, le_refl _⟩
    · rw [if_neg h1] at h
      by_cases h2 : blockedAt b
          ((gridGet (entryOrDefault g (b.min_z - 1)) (b.min_z - 1)).getD []) = true
      · rw [if_pos h2] at h
        injection h with h3
        injection h3 with hb hg
        subst hb
        exact ⟨rfl, rfl, rfl, rfl, rfl, le_refl _⟩
      · rw [if_neg h2] at h
        by_cases h3 : gridContains (entryOrDefault g (b.min_z - 1)) b.max_z = true
        · rw [if_pos h3] at h
          obtain ⟨e1, e2, e3, e4, e5, e6⟩ := ih _ _ h
          exact ⟨e1, e2, e3, e4, e5, le_trans e6 (Nat.sub_le _ _)⟩
        · rw [if_neg h3] at h; cases h

theorem dropGo_min_pos (id : Nat) (fuel : Nat) (b : Brick) (g : Grid)
    (b' : Brick) (g' : Grid) (h : dropGo id fuel b g = some (b', g'))
    (hb : 1 ≤ b.min_z) : 1 ≤ b'.min_z := by
  induction fuel generalizing b g with
  | zero =>
    simp only [dropGo] at h
    by_cases h1 : b.min_z ≤ 1
    · rw [if_pos h1] at h
      injection h with h2; injection h2 with hbe hg; subst hbe; exact hb
    · rw [if_neg h1] at h; cases h
  | succ fuel ih =>
    simp only [dropGo] at h
    by_cases h1 : b.min_z ≤ 1
    · rw [if_pos h1] at h
      injection h with h2; injection h2 with hbe hg; subst hbe; exact hb
    · rw [if_neg h1] at h
      by_cases h2 : blockedAt b
          ((gridGet (entryOrDefault g (b.min_z - 1)) (b.min_z - 1)).getD []) = true
      · rw [if_pos h2] at h
        injection h with h3; injection h3 with hbe hg; subst hbe; exact hb
      · rw [if_neg h2] at h
        by_cases h3 : gridContains (entryOrDefault g (b.min_z - 1)) b.max_z = true
        · rw [if_pos h3] at h
          exact ih _ _ h (by
            show 1 ≤ b.min_z - 1
            omega)
        · rw [if_neg h3] at h; cases h

theorem dropGo_contains (id : Nat) (fuel : Nat) (b : Brick) (g : Grid)
    (b' : Brick) (g' : Grid) (h : dropGo id fuel b g = some (b', g'))
    (w : Nat) (hw : gridContains g w = true) : gridContains g' w = true := by
  induction fuel generalizing b g with
  | zero =>
    simp only [dropGo] at h
    by_cases h1 : b.min_z ≤ 1
    · rw [if_pos h1] at h
      injection h with h2; injection h2 with hbe hg; subst hg; exact hw
    · rw [if_neg h1] at h; cases h
  | succ fuel ih =>
    simp only [dropGo] at h
    by_cases h1 : b.min_z ≤ 1
    · rw [if_pos h1] at h
      injection h with h2; injection h2 with hbe hg; subst hg; exact hw
    · rw [if_neg h1] at h
      have hod : gridContains (entryOrDefault g (b.min_z - 1)) w = true := by
        rw [gridContains_entryOrDefault, hw]; rfl
      by_cases h2 : blockedAt b
          ((gridGet (entryOrDefault g (b.min_z - 1)) (b.min_z - 1)).getD []) = true
      · rw [if_pos h2] at h
        injection h with h3; injection h3 with hbe hg; subst hg; exact hod
      · rw [if_neg h2] at h
        by_cases h3 : gridContains (entryOrDefault g (b.min_z - 1)) b.max_z = true
        · rw [if_pos h3] at h
          exact ih _ _ h (by rw [gridContains_moveCells]; exact hod)
        · rw [if_neg h3] at h; cases h

/-- If the loop's stop test fails for the layer below, every footprint
cell there is vacant. -/
theorem not_blocked_vacant (b : Brick) (g1 : Grid) (nz : Nat)
    (hc : gridContains g1 nz = true)
    (h : ¬ blockedAt b ((gridGet g1 nz).getD []) = true)
    (q : XYPoint) (hq : q ∈ b.fpList) : cellGet g1 nz q = none := by
  unfold blockedAt at h
  rw [Bool.and_eq_true, not_and] at h
  unfold gridContains at hc
  cases hg : gridGet g1 nz with
  | none => rw [hg] at hc; simp at hc
  | some l =>
    rw [hg] at h
    cases hl : cellGet g1 nz q with
    | none => rfl
    | some v =>
      exfalso
      unfold cellGet at hl
      rw [hg] at hl
      have hl' : layerGet l q = some v := hl
      have hne : l.isEmpty = false :=
        isEmpty_false_of_layerGet l q (by rw [hl']; rfl)
      have h1 : (!l.isEmpty) = true := by rw [hne]; rfl
      have h2 := h h1
      rw [List.any_eq_true] at h2
      exact h2 ⟨q, hq, by
        show (layerGet l q).isSome = true
        rw [hl']; rfl⟩

theorem dropGo_untouched (id : Nat) (fuel : Nat) (b : Brick) (g : Grid)
    (b' : Brick) (g' : Grid) (h : dropGo id fuel b g = some (b', g'))
    (q : XYPoint) (hq : q ∉ b.fpList) (w : Nat) :
    cellGet g' w q = cellGet g w q := by
  induction fuel generalizing b g with
  | zero =>
    simp only [dropGo] at h
    by_cases h1 : b.min_z ≤ 1
    · rw [if_pos h1] at h
      injection h with h2; injection h2 with hbe hg; subst hg; rfl
    · rw [if_neg h1] at h; cases h
  | succ fuel ih =>
    simp only [dropGo] at h
    by_cases h1 : b.min_z ≤ 1
    · rw [if_pos h1] at h
      injection h with h2; injection h2 with hbe hg; subst hg; rfl
    · rw [if_neg h1] at h
      by_cases h2 : blockedAt b
          ((gridGet (entryOrDefault g (b.min_z - 1)) (b.min_z - 1)).getD []) = true
      · rw [if_pos h2] at h
        injection h with h3; injection h3 with hbe hg; subst hg
        exact cellGet_entryOrDefault g _ w q
      · rw [if_neg h2] at h
        by_cases h3 : gridContains (entryOrDefault g (b.min_z - 1)) b.max_z = true
        · rw [if_pos h3] at h
          have hq' : q ∉ b.fall_by_one.fpList := by rw [fpList_fall]; exact hq
          rw [ih _ _ h hq']
          unfold moveCells
          rw [cellGet_moveFold]
          rw [if_neg hq]
          exact cellGet_entryOrDefault g _ w q
        · rw [if_neg h3] at h; cases h

theorem dropGo_survival (id : Nat) (fuel : Nat) (b : Brick) (g : Grid)
    (b' : Brick) (g' : Grid) (h : dropGo id fuel b g = some (b', g'))
    (z : Nat) (q : XYPoint) (hz : z < b.min_z)
    (hocc : (cellGet g z q).isSome = true) :
    cellGet g' z q = cellGet g z q := by
  induction fuel generalizing b g with
  | zero =>
    simp only [dropGo] at h
    by_cases h1 : b.min_z ≤ 1
    · rw [if_pos h1] at h
      injection h with h2; injection h2 with hbe hg; subst hg; rfl
    · rw [if_neg h1] at h; cases h
  | succ fuel ih =>
    simp only [dropGo] at h
    by_cases h1 : b.min_z ≤ 1
    · rw [if_pos h1] at h
      injection h with h2; injection h2 with hbe hg; subst hg; rfl
    · rw [if_neg h1] at h
      by_cases h2 : blockedAt b
          ((gridGet (entryOrDefault g (b.min_z - 1)) (b.min_z - 1)).getD []) = true
      · rw [if_pos h2] at h
        injection h with h3; injection h3 with hbe hg; subst hg
        exact cellGet_entryOrDefault g _ z q
      · rw [if_neg h2] at h
        by_cases h3 : gridContains (entryOrDefault g (b.min_z - 1)) b.max_z = true
        · rw [if_pos h3] at h
          by_cases hq : q ∈ b.fpList
          · -- the occupied cell cannot sit in the layer just below:
            -- the brick would have been blocked there
            have hzne : z ≠ b.min_z - 1 := by
              intro hzeq
              have hvac := not_blocked_vacant b (entryOrDefault g (b.min_z - 1))
                (b.min_z - 1) (gridContains_entryOrDefault_self g _) h2 q hq
              rw [← hzeq, cellGet_entryOrDefault] at hvac
              rw [hvac] at hocc
              cases hocc
            have hmove : cellGet (moveCells (entryOrDefault g (b.min_z - 1)) b id
                (b.min_z - 1)) z q = cellGet g z q := by
              unfold moveCells
              rw [cellGet_moveFold, if_pos hq]
              have hzmax : ¬(z = b.max_z) := by
                unfold Brick.max_z
                intro hcon
                rcases Nat.eq_zero_or_pos b.z_range_len with hlen | hlen
                · exact hzne (by omega)
                · omega
              rw [if_neg hzmax, if_neg (fun hcon => hzne hcon)]
              exact cellGet_entryOrDefault g _ z q
            rw [← hmove]
            exact ih _ _ h (by
                show z < b.min_z - 1
                omega) (by rw [hmove]; exact hocc)
          · have huntouched := dropGo_untouched id fuel b.fall_by_one _ b' g' h q
              (by rw [fpList_fall]; exact hq) z
            rw [huntouched]
            unfold moveCells
            rw [cellGet_moveFold, if_neg hq]
            exact cellGet_entryOrDefault g _ z q
        · rw [if_neg h3] at h; cases h

/-- If the stop test succeeds, some footprint cell in the inspected
layer is occupied. -/
theorem blocked_cell (b : Brick) (g1 : Grid) (nz : Nat)
    (hc : gridContains g1 nz = true)
    (h : blockedAt b ((gridGet g1 nz).getD []) = true) :
    ∃ q, q ∈ b.fpList ∧ (cellGet g1 nz q).isSome = true := by
  unfold blockedAt at h
  rw [Bool.and_eq_true] at h
  obtain ⟨h1, h2⟩ := h
  rw [List.any_eq_true] at h2
  obtain ⟨q, hq, hsome⟩ := h2
  cases hg : gridGet g1 nz with
  | none => unfold gridContains at hc; rw [hg] at hc; cases hc
  | some l =>
    rw [hg] at hsome
    refine ⟨q, hq, ?_⟩
    unfold cellGet
    rw [hg]
    exact hsome

/-- A settled brick that did not reach the floor is blocked by an
occupied footprint cell in the layer directly below it. -/
theorem dropGo_blocked (id : Nat) (fuel : Nat) (b : Brick) (g : Grid)
    (b' : Brick) (g' : Grid) (h : dropGo id fuel b g = some (b', g'))
    (hm : 2 ≤ b'.min_z) :
    ∃ q, q ∈ b'.fpList ∧ (cellGet g' (b'.min_z - 1) q).isSome = true := by
  induction fuel generalizing b g with
  | zero =>
    simp only [dropGo] at h
    by_cases h1 : b.min_z ≤ 1
    · rw [if_pos h1] at h
      injection h with h2; injection h2 with hbe hg
      subst hbe; omega
    · rw [if_neg h1] at h; cases h
  | succ fuel ih =>
    simp only [dropGo] at h
    by_cases h1 : b.min_z ≤ 1
    · rw [if_pos h1] at h
      injection h with h2; injection h2 with hbe hg
      subst hbe; omega
    · rw [if_neg h1] at h
      by_cases h2 : blockedAt b
          ((gridGet (entryOrDefault g (b.min_z - 1)) (b.min_z - 1)).getD []) = true
      · rw [if_pos h2] at h
        injection h with h3; injection h3 with hbe hg
        subst hbe; subst hg
        exact blocked_cell b _ _ (gridContains_entryOrDefault_self g _) h2
      · rw [if_neg h2] at h
        by_cases h3 : gridContains (entryOrDefault g (b.min_z - 1)) b.max_z = true
        · rw [if_pos h3] at h
          exact ih _ _ h
        · rw [if_neg h3] at h; cases h

/-- `drop_brick` is the identity on a brick that is already on the floor
or blocked directly below, and leaves the grid exactly unchanged. -/
theorem dropBrick_noop (id : Nat) (b : Brick) (g : Grid)
    (h : b.min_z ≤ 1 ∨
      (gridContains g (b.min_z - 1) = true ∧
        ∃ q, q ∈ b.fpList ∧ (cellGet g (b.min_z - 1) q).isSome = true)) :
    dropBrick id b g = some (b, g) := by
  unfold dropBrick
  by_cases hm : b.min_z ≤ 1
  · cases hmz : b.min_z with
    | zero => simp [dropGo, hmz]
    | succ n =>
      simp only [dropGo]
      rw [if_pos hm]
  · rcases h with h1 | ⟨hc, q, hq, hsome⟩
    · exact absurd h1 hm
    · cases hmz : b.min_z with
      | zero => rw [hmz] at hm; omega
      | succ n =>
        simp only [dropGo]
        rw [if_neg hm]
        rw [entryOrDefault_of_contains g _ hc]
        have hblocked : blockedAt b ((gridGet g (b.min_z - 1)).getD []) = true := by
          cases hg : gridGet g (b.min_z - 1) with
          | none =>
            unfold gridContains at hc
            rw [hg] at hc; cases hc
          | some l =>
            have hl : cellGet g (b.min_z - 1) q = layerGet l q := by
              simp [cellGet, hg]
            unfold blockedAt
            rw [Bool.and_eq_true]
            refine ⟨?_, ?_⟩
            · show (!l.isEmpty) = true
              rw [isEmpty_false_of_layerGet l q (by rw [← hl]; exact hsome)]
              rfl
            · show (b.fpList.any fun p => (layerGet l p).isSome) = true
              rw [List.any_eq_true]
              exact ⟨q, hq, by rw [← hl]; exact hsome⟩
        rw [if_pos hblocked]

/-! ## The settling pass -/

theorem settleAll_survival (l : List (Nat × Brick)) (g : Grid)
    (s : List (Nat × Brick)) (g₁ : Grid) (h : settleAll l g = some (s, g₁))
    (z : Nat) (q : XYPoint) (hall : ∀ c ∈ l, z < c.2.min_z)
    (hocc : (cellGet g z q).isSome = true) :
    cellGet g₁ z q = cellGet g z q := by
  induction l generalizing g s with
  | nil =>
    simp only [settleAll] at h
    injection h with h2; injection h2 with hs hg
    subst hg; rfl
  | cons e rest ih =>
    obtain ⟨id, b⟩ := e
    simp only [settleAll] at h
    cases hd : dropBrick id b g with
    | none => rw [hd, Option.none_bind] at h; cases h
    | some r =>
      obtain ⟨b', g'⟩ := r
      rw [hd] at h
      simp only [Option.some_bind] at h
      cases hsrest : settleAll rest g' with
      | none => rw [hsrest, Option.none_bind] at h; cases h
      | some r2 =>
        obtain ⟨s', g''⟩ := r2
        rw [hsrest] at h
        simp only [Option.some_bind] at h
        injection h with h2; injection h2 with hh1 hh2
        rw [hh2] at hsrest
        have hz : z < b.min_z := hall (id, b) (List.mem_cons_self _ _)
        have hsurv1 : cellGet g' z q = cellGet g z q :=
          dropGo_survival id b.min_z b g b' g' hd z q hz hocc
        have hocc' : (cellGet g' z q).isSome = true := by
          rw [hsurv1]; exact hocc
        have hsurv2 : cellGet g₁ z q = cellGet g' z q :=
          ih g' s' hsrest
            (fun c hc => hall c (List.mem_cons_of_mem _ hc)) hocc'
        rw [hsurv2, hsurv1]

/-- After a sorted settling pass, every settled brick is on the floor or
blocked directly below in the final grid. -/
theorem settle_blocked (l : List (Nat × Brick)) (g : Grid)
    (s : List (Nat × Brick)) (g₁ : Grid) (hs : SortedByMinZ l)
    (h : settleAll l g = some (s, g₁)) :
    ∀ e ∈ s, e.2.min_z ≤ 1 ∨
      (gridContains g₁ (e.2.min_z - 1) = true ∧
        ∃ q, q ∈ e.2.fpList ∧
          (cellGet g₁ (e.2.min_z - 1) q).isSome = true) := by
  induction l generalizing g s with
  | nil =>
    simp only [settleAll] at h
    injection h with h2; injection h2 with hse hg
    subst hse
    intro e he; cases he
  | cons hd0 rest ih =>
    obtain ⟨id, b⟩ := hd0
    unfold SortedByMinZ at hs
    rw [List.pairwise_cons] at hs
    obtain ⟨hhead, hrest⟩ := hs
    simp only [settleAll] at h
    cases hd : dropBrick id b g with
    | none => rw [hd, Option.none_bind] at h; cases h
    | some r =>
      obtain ⟨b', g'⟩ := r
      rw [hd] at h
      simp only [Option.some_bind] at h
      cases hsrest : settleAll rest g' with
      | none => rw [hsrest, Option.none_bind] at h; cases h
      | some r2 =>
        obtain ⟨s', g''⟩ := r2
        rw [hsrest] at h
        simp only [Option.some_bind] at h
        injection h with h2; injection h2 with hh1 hh2
        subst hh1
        rw [hh2] at hsrest
        intro e he
        rcases List.mem_cons.mp he with he1 | he2
        · subst he1
          by_cases hm : b'.min_z ≤ 1
          · exact Or.inl hm
          · right
            obtain ⟨q, hq, hsome⟩ :=
              dropGo_blocked id b.min_z b g b' g' hd (by omega)
            have hminle : b'.min_z ≤ b.min_z :=
              (dropGo_shape id b.min_z b g b' g' hd).2.2.2.2.2
            have hsurv : cellGet g₁ (b'.min_z - 1) q =
                cellGet g' (b'.min_z - 1) q :=
              settleAll_survival rest g' s' g₁ hsrest (b'.min_z - 1) q
                (fun c hc => by
                  have hbc : b.min_z ≤ c.2.min_z := hhead c hc
                  omega)
                hsome
            have hsome1 : (cellGet g₁ (b'.min_z - 1) q).isSome = true := by
              rw [hsurv]; exact hsome
            exact ⟨cellGet_isSome_contains _ _ _ hsome1, q, hq, hsome1⟩
        · exact ih g' s' hrest hsrest e he2

/-- A pass over bricks whose drops are all no-ops is itself a no-op. -/
theorem settleAll_of_noop (s : List (Nat × Brick)) (g : Grid)
    (h : ∀ e ∈ s, dropBrick e.1 e.2 g = some (e.2, g)) :
    settleAll s g = some (s, g) := by
  induction s with
  | nil => rfl
  | cons e rest ih =>
    obtain ⟨id, b⟩ := e
    simp only [settleAll]
    rw [h (id, b) (List.mem_cons_self _ _)]
    simp only [Option.some_bind]
    rw [ih fun e he => h e (List.mem_cons_of_mem _ he)]
    simp only [Option.some_bind]

/-- C6: running the settling pass a second time on an already-settled
configuration (bricks were processed in ascending `min_z` order) moves
no brick — every `drop_brick` call returns its input brick unchanged —
and leaves the occupancy grid exactly equal to its pre-run state. -/
theorem settling_pass_idempotent (l : List (Nat × Brick)) (g : Grid)
    (settled : List (Nat × Brick)) (g₁ : Grid) (hs : SortedByMinZ l)
    (h : settleAll l g = some (settled, g₁)) :
    (∀ e ∈ settled, dropBrick e.1 e.2 g₁ = some (e.2, g₁)) ∧
      settleAll settled g₁ = some (settled, g₁) := by
  have hpt : ∀ e ∈ settled, dropBrick e.1 e.2 g₁ = some (e.2, g₁) := fun e he =>
    dropBrick_noop e.1 e.2 g₁ (settle_blocked l g settled g₁ hs h e he)
  exact ⟨hpt, settleAll_of_noop settled g₁ hpt⟩

/-- Witness for C6 on the two-brick input `fgInput`. -/
theorem settling_pass_idempotent_witness :
    SortedByMinZ fgSorted ∧
      settleAll fgSorted fgGrid0 = some (fgSettledPair.1, fgSettledPair.2) ∧
      ((∀ e ∈ fgSettledPair.1,
          dropBrick e.1 e.2 fgSettledPair.2 = some (e.2, fgSettledPair.2)) ∧
        settleAll fgSettledPair.1 fgSettledPair.2 =
          some (fgSettledPair.1, fgSettledPair.2)) :=
  ⟨by decide, by decide,
    settling_pass_idempotent fgSorted fgGrid0 fgSettledPair.1 fgSettledPair.2
      (by decide) (by decide)⟩

/-! ## Claim C4: the floor invariant -/

/-- Bricks that start at `min_z ≥ 1` settle at `min_z ≥ 1`. -/
theorem settleAll_min_pos (l : List (Nat × Brick)) (g : Grid)
    (s : List (Nat × Brick)) (g₁ : Grid) (h : settleAll l g = some (s, g₁))
    (hall : ∀ e ∈ l, 1 ≤ e.2.min_z) : ∀ e ∈ s, 1 ≤ e.2.min_z := by
  induction l generalizing g s with
  | nil =>
    simp only [settleAll] at h
    injection h with h2; injection h2 with hse hg
    subst hse
    intro e he; cases he
  | cons hd0 rest ih =>
    obtain ⟨id, b⟩ := hd0
    simp only [settleAll] at h
    cases hd : dropBrick id b g with
    | none => rw [hd, Option.none_bind] at h; cases h
    | some r =>
      obtain ⟨b', g'⟩ := r
      rw [hd] at h
      simp only [Option.some_bind] at h
      cases hsrest : settleAll rest g' with
      | none => rw [hsrest, Option.none_bind] at h; cases h
      | some r2 =>
        obtain ⟨s', g''⟩ := r2
        rw [hsrest] at h
        simp only [Option.some_bind] at h
        injection h with h2; injection h2 with hh1 hh2
        subst hh1
        rw [hh2] at hsrest
        intro e he
        rcases List.mem_cons.mp he with he1 | he2
        · subst he1
          exact dropGo_min_pos id b.min_z b g b' g' hd
            (hall (id, b) (List.mem_cons_self _ _))
        · exact ih g' s' hsrest
            (fun c hc => hall c (List.mem_cons_of_mem _ hc)) e he2

/-- C4 (amended): provided every parsed brick starts at `min_z ≥ 1` —
true of every real puzzle input — every brick has `min_z ≥ 1` once the
settling pass has processed it, and (bricks never being moved again)
this persists for the rest of the run. -/
theorem settled_bricks_above_floor (l : List (Nat × Brick)) (g : Grid)
    (s : List (Nat × Brick)) (g₁ : Grid) (h : settleAll l g = some (s, g₁))
    (hall : ∀ e ∈ l, 1 ≤ e.2.min_z) : ∀ e ∈ s, 1 ≤ e.2.min_z :=
  settleAll_min_pos l g s g₁ h hall

/-- C4 counterexample: the well-formed line `0,0,0~0,0,0` parses to a
brick with `min_z = 0`, and the settling pass leaves it at `min_z = 0`,
violating the unconditional claim. -/
theorem floor_invariant_fails_at_z0 :
    parsePuzzle zeroInput = .ok [(0, ⟨0, 0, 0, 0, 0, 1⟩)] ∧
      (settleAll (sortByMinZ [(0, ⟨0, 0, 0, 0, 0, 1⟩)])
          (buildGrid [(0, ⟨0, 0, 0, 0, 0, 1⟩)])).map
        (fun r => r.1.map fun e => e.2.min_z) = some [0] :=
  ⟨rfl, by decide⟩

/-- Witness for the amended C4 on `fgInput`. -/
theorem settled_bricks_above_floor_witness :
    settleAll fgSorted fgGrid0 = some (fgSettledPair.1, fgSettledPair.2) ∧
      (∀ e ∈ fgSorted, 1 ≤ e.2.min_z) ∧
      ∀ e ∈ fgSettledPair.1, 1 ≤ e.2.min_z :=
  ⟨by decide, by decide,
    settled_bricks_above_floor fgSorted fgGrid0 fgSettledPair.1 fgSettledPair.2
      (by decide) (by decide)⟩

/-! ## Claim C7: parsed bricks are normalized -/

theorem fromChars_normalized (cs : List Char) (b : Brick)
    (h : Brick.fromChars cs = .ok b) :
    b.min_x ≤ b.max_x ∧ b.min_y ≤ b.max_y ∧ b.min_z ≤ b.max_z ∧
      1 ≤ b.z_range_len := by
  unfold Brick.fromChars at h
  repeat' split at h
  all_goals try cases h
  refine ⟨?_, ?_, ?_, ?_⟩ <;> simp only [Brick.max_z] <;> omega

/-- C7: every successfully parsed brick line yields normalized extents
(`min ≤ max` on each axis, whatever the order of the two corner points)
and a positive height. -/
theorem parsed_brick_normalized (cs : List Char) (b : Brick)
    (h : Brick.fromChars cs = .ok b) :
    b.min_x ≤ b.max_x ∧ b.min_y ≤ b.max_y ∧ b.min_z ≤ b.max_z ∧
      1 ≤ b.z_range_len :=
  fromChars_normalized cs b h

/-- Witness for C7 on the first example line. -/
theorem parsed_brick_normalized_witness :
    Brick.fromChars ("1,0,1~1,2,1".data) = .ok ⟨1, 1, 0, 2, 1, 1⟩ ∧
      ((⟨1, 1, 0, 2, 1, 1⟩ : Brick).min_x ≤ (⟨1, 1, 0, 2, 1, 1⟩ : Brick).max_x ∧
        (⟨1, 1, 0, 2, 1, 1⟩ : Brick).min_y ≤ (⟨1, 1, 0, 2, 1, 1⟩ : Brick).max_y ∧
        (⟨1, 1, 0, 2, 1, 1⟩ : Brick).min_z ≤ (⟨1, 1, 0, 2, 1, 1⟩ : Brick).max_z ∧
        1 ≤ (⟨1, 1, 0, 2, 1, 1⟩ : Brick).z_range_len) :=
  ⟨rfl, parsed_brick_normalized ("1,0,1~1,2,1".data) ⟨1, 1, 0, 2, 1, 1⟩ rfl⟩

/-! ## Claim C8: parse errors exactly on malformed lines, aborting the run -/

theorem fromChars_isOk_iff (cs : List Char) :
    (Brick.fromChars cs).isOk = wellFormedLine cs := by
  unfold Brick.fromChars wellFormedLine
  repeat' split
  all_goals rfl

theorem parseLinesFrom_error (i : Nat) (ls : List (List Char))
    (h : ∃ l ∈ ls, wellFormedLine l = false) :
    (parseLinesFrom i ls).isOk = false := by
  induction ls generalizing i with
  | nil =>
    obtain ⟨l, hl, _⟩ := h
    cases hl
  | cons l0 rest ih =>
    simp only [parseLinesFrom]
    by_cases hi : i ≤ 65535
    · rw [if_pos hi]
      cases hb : Brick.fromChars l0 with
      | error e => rfl
      | ok b =>
        obtain ⟨l, hl, hwf⟩ := h
        rcases List.mem_cons.mp hl with rfl | hmem
        · exfalso
          have hiff := fromChars_isOk_iff l
          rw [hb, hwf] at hiff
          exact Bool.noConfusion hiff
        · have hih := ih (i + 1) ⟨l, hmem, hwf⟩
          cases hx : parseLinesFrom (i + 1) rest with
          | error e => rfl
          | ok y =>
            rw [hx] at hih
            exact Bool.noConfusion hih
    · rw [if_neg hi]; rfl

/-- C8: a brick line parses successfully exactly when it is well formed
(two triples of parseable numeric fields joined by a single `~`, two
commas per side), and any malformed line makes the whole input parse
return an error — no partial result. -/
theorem parse_error_iff_malformed :
    (∀ cs, (Brick.fromChars cs).isOk = wellFormedLine cs) ∧
      ∀ s, (∃ l ∈ rustLines s, wellFormedLine l = false) →
        (parsePuzzle s).isOk = false :=
  ⟨fromChars_isOk_iff, fun _ h => parseLinesFrom_error 0 _ h⟩

/-- Witness for C8: a well-formed line parses, and one malformed line
aborts the whole parse. -/
theorem parse_error_iff_malformed_witness :
    (Brick.fromChars ("1,0,1~1,2,1".data)).isOk =
        wellFormedLine ("1,0,1~1,2,1".data) ∧
      (parsePuzzle "1,0,1~1,2,1\nbogus\n2,2,2~2,2,3").isOk = false :=
  ⟨parse_error_iff_malformed.1 _,
    parse_error_iff_malformed.2 "1,0,1~1,2,1\nbogus\n2,2,2~2,2,3" (by decide)⟩

/-! ## Claim C9: what the support-analysis query actually reports -/

/-- C9 counterexample: a configuration in which the unique dependent has
two distinct brick ids directly below its own footprint (so the claim
says the brick must be reported safely removable), yet the query does
not report it safe — it aborts in the `RefCell` double borrow. -/
theorem support_query_not_iff :
    dependentIds c9Brick c9Grid = [1] ∧
      hasTwoOrMoreBricksBelow c9Dependent c9Grid = some true ∧
      checkDisintegrate c9Brick c9Grid c9IdMap ≠ some true := by decide

/-- C9 (amended): the query reports a brick safely removable exactly
when it has no dependents (the layer above its top is absent or vacant
over its footprint); whenever at least one dependent exists the query
aborts (`RefCell` already-mutably-borrowed panic), so it never consults
the two-supports test and never reports `false`. -/
theorem support_query_characterization (b : Brick) (g : Grid)
    (idm : List (Nat × Brick)) :
    (checkDisintegrate b g idm = some true ↔ dependentIds b g = []) ∧
      (checkDisintegrate b g idm = none ↔ dependentIds b g ≠ []) ∧
      checkDisintegrate b g idm ≠ some false := by
  unfold checkDisintegrate dependentIds
  cases hg : gridGet g (b.max_z + 1) with
  | none => simp
  | some la =>
    by_cases he :
        ((b.fpList.filterMap fun p => layerGet la p).dedup).isEmpty = true
    · have hnil := List.isEmpty_iff.mp he
      simp [he, hnil]
    · have hnil : ¬((b.fpList.filterMap fun p => layerGet la p).dedup = []) :=
        fun hcon => he (by rw [hcon]; rfl)
      simp [he, hnil]

/-- Witness instantiating the amended C9 characterization. -/
theorem support_query_characterization_witness :
    checkDisintegrate c9Brick c9Grid c9IdMap = none ↔
      dependentIds c9Brick c9Grid ≠ [] :=
  (support_query_characterization c9Brick c9Grid c9IdMap).2.1

/-! ## Claims C1 and C2: what the program computes on the spec's example -/

/-- C1: on the spec's own well-formed 7-brick example the program prints
nothing at all — the first support query has a dependent, so the run
aborts in the `RefCell` double borrow (modelled by `none`) — while the
count of safely removable bricks required by the spec is 5. -/
theorem program_diverges_from_spec_on_example :
    solveCanonical exampleInput = none ∧
      specSafeCount exampleInput = some 5 := by decide

/-- C2: the program's computed answer on the 7-brick example is not 5:
the run aborts (no value is computed) during the very first support
query. -/
theorem example_answer_not_computed : solveCanonical exampleInput = none := by
  decide

/-! ## Claim C3: the run is not two-phase -/

/-- C3 counterexample: on `fgInput` the interleaved run completes with
answer 2 (each brick is queried before the next settles), while a
strictly two-phase run — all settling first, every query against the
final grid — aborts in the first query (`G` has settled onto `F`).  The
run therefore cannot be strictly two-phase. -/
theorem run_is_not_two_phase :
    solveCanonical fgInput = some 2 ∧ twoPhaseSolve fgInput = none := by
  decide

theorem settleAll_length (l : List (Nat × Brick)) (g : Grid)
    (s : List (Nat × Brick)) (g₁ : Grid)
    (h : settleAll l g = some (s, g₁)) : s.length = l.length := by
  induction l generalizing g s with
  | nil =>
    simp only [settleAll] at h
    injection h with h2; injection h2 with hse hg
    subst hse; rfl
  | cons hd0 rest ih =>
    obtain ⟨id, b⟩ := hd0
    simp only [settleAll] at h
    cases hd : dropBrick id b g with
    | none => rw [hd, Option.none_bind] at h; cases h
    | some r =>
      rw [hd] at h
      simp only [Option.some_bind] at h
      cases hsrest : settleAll rest r.2 with
      | none => rw [hsrest, Option.none_bind] at h; cases h
      | some r2 =>
        obtain ⟨s', g''⟩ := r2
        rw [hsrest] at h
        simp only [Option.some_bind] at h
        injection h with h2; injection h2 with hh1 hh2
        subst hh1
        rw [hh2] at hsrest
        simp only [List.length_cons]
        rw [ih r.2 s' hsrest]

theorem mapM_congr_mem {α β : Type} (l : List α) (f f' : α → Option β)
    (h : ∀ x ∈ l, f x = f' x) : l.mapM f = l.mapM f' := by
  induction l with
  | nil => rfl
  | cons x xs ih =>
    rw [List.mapM_cons, List.mapM_cons, h x (List.mem_cons_self _ _),
      ih fun y hy => h y (List.mem_cons_of_mem _ hy)]

theorem mapM_map {α β γ : Type} (l : List α) (g : α → γ) (f : γ → Option β) :
    (l.map g).mapM f = l.mapM fun x => f (g x) := by
  induction l with
  | nil => rfl
  | cons x xs ih => rw [List.map_cons, List.mapM_cons, List.mapM_cons, ih]

/-- C3 (amended): the run interleaves the phases.  The program's answer
equals the staged reformulation in which the `i`-th support query is
evaluated against the grid obtained by settling exactly the first
`i + 1` bricks of the processing order — bricks after the `i`-th are
still at their parsed positions when brick `i` is queried. -/
theorem solveLoop_eq_staged (l : List (Nat × Brick)) (g : Grid)
    (idm : List (Nat × Brick)) : solveLoop l g idm = stagedAnswer l g idm := by
  induction l generalizing g with
  | nil => rfl
  | cons hd0 rest ih =>
    obtain ⟨id, b⟩ := hd0
    unfold stagedAnswer
    simp only [List.length_cons, List.range_succ_eq_map, List.mapM_cons,
      List.take_succ_cons]
    rw [mapM_map]
    cases hd : dropBrick id b g with
    | none =>
      have hset : ∀ i,
          settleAll ((id, b) :: rest.take i) g = none := by
        intro i
        simp only [settleAll]
        rw [hd, Option.none_bind]
      simp only [solveLoop]
      rw [hd, Option.none_bind]
      simp only [settleAll, List.take_succ_cons]
      rw [hd, Option.none_bind, Option.none_bind]
      rfl
    | some r =>
      obtain ⟨b', g'⟩ := r
      simp only [solveLoop]
      simp only [settleAll, List.take_succ_cons, hd, Option.some_bind,
        Nat.succ_eq_add_one, List.map_cons, List.map_nil,
        List.getLast?_singleton]
      cases hc : checkDisintegrate b' g' idm with
      | none =>
        rw [Option.none_bind]
        rfl
      | some safe =>
        have hfcong :
            (List.range rest.length).mapM (fun i =>
              ((settleAll (rest.take (i + 1)) g').bind fun r2 =>
                  some ((id, b') :: r2.1, r2.2)).bind fun r =>
                match (r.1.map Prod.snd).getLast? with
                | none => none
                | some bb => checkDisintegrate bb r.2 idm) =
            (List.range rest.length).mapM (fun i =>
              (settleAll (rest.take (i + 1)) g').bind fun r =>
                match (r.1.map Prod.snd).getLast? with
                | none => none
                | some bb => checkDisintegrate bb r.2 idm) := by
          apply mapM_congr_mem
          intro i hi
          rw [List.mem_range] at hi
          cases hs2 : settleAll (rest.take (i + 1)) g' with
          | none => rw [Option.none_bind, Option.none_bind]
          | some r2 =>
            obtain ⟨r2l, r2g⟩ := r2
            rw [Option.some_bind, Option.some_bind, Option.some_bind]
            have hlen : r2l.length = (rest.take (i + 1)).length :=
              settleAll_length _ _ _ _ hs2
            cases r2l with
            | nil =>
              rw [List.length_nil, List.length_take] at hlen
              omega
            | cons a t => simp only [List.map_cons, List.getLast?_cons_cons]
        simp only [Option.bind_eq_bind, Option.some_bind]
        rw [hfcong, ih g']
        unfold stagedAnswer
        cases hmm : (List.range rest.length).mapM (fun i =>
            (settleAll (rest.take (i + 1)) g').bind fun r =>
              match (r.1.map Prod.snd).getLast? with
              | none => none
              | some bb => checkDisintegrate bb r.2 idm) with
        | none => rfl
        | some rs => cases safe <;> simp [List.filter_cons] <;> omega

/-! ## Claim C5: bricks stay pairwise disjoint while settling -/

theorem mem_fpList_iff (b : Brick) (p : XYPoint) :
    p ∈ b.fpList ↔
      b.min_x ≤ p.x ∧ p.x ≤ b.max_x ∧ b.min_y ≤ p.y ∧ p.y ≤ b.max_y := by
  unfold Brick.fpList
  simp only [List.mem_flatMap, List.mem_map, List.mem_range'_1]
  constructor
  · rintro ⟨x, hx, y, hy, rfl⟩
    dsimp only
    omega
  · rintro ⟨h1, h2, h3, h4⟩
    exact ⟨p.x, by omega, p.y, by omega, rfl⟩

theorem mem_zList_iff (b : Brick) (z : Nat) (hlen : 1 ≤ b.z_range_len) :
    z ∈ b.zList ↔ b.min_z ≤ z ∧ z ≤ b.max_z := by
  unfold Brick.zList Brick.max_z
  rw [List.mem_range'_1]
  omega

theorem occupies_iff (b : Brick) (p : XYPoint) (z : Nat)
    (hlen : 1 ≤ b.z_range_len) :
    b.occupies p z ↔ p ∈ b.fpList ∧ z ∈ b.zList := by
  rw [mem_fpList_iff, mem_zList_iff b z hlen]
  unfold Brick.occupies
  constructor
  · rintro ⟨h1, h2, h3, h4, h5, h6⟩; exact ⟨⟨h1, h2, h3, h4⟩, h5, h6⟩
  · rintro ⟨⟨h1, h2, h3, h4⟩, h5, h6⟩; exact ⟨h1, h2, h3, h4, h5, h6⟩

theorem BrickDisj.symm2 {a b : Brick} (h : BrickDisj a b) : BrickDisj b a :=
  fun p z hc => h p z ⟨hc.2, hc.1⟩

theorem cellGet_insFold (ps : List XYPoint) (g : Grid) (z0 : Nat) (id : Nat)
    (hc : gridContains g z0 = true) (w : Nat) (q : XYPoint) :
    cellGet
        (ps.foldl (fun a p => gridModify a z0 fun l => layerInsert l p id) g)
        w q =
      if w = z0 ∧ q ∈ ps then some id else cellGet g w q := by
  induction ps generalizing g with
  | nil => simp
  | cons p ps ih =>
    rw [List.foldl_cons]
    rw [ih _ (by rw [gridContains_gridModify]; exact hc)]
    rw [cellGet_modify_insert]
    by_cases hw : w = z0
    · subst hw
      by_cases hqp : q = p
      · subst hqp
        simp [hc, List.mem_cons]
      · by_cases hqps : q ∈ ps <;> simp [hqp, hqps, hc, List.mem_cons]
    · simp [hw]

theorem gridContains_insFold (ps : List XYPoint) (g : Grid) (z0 : Nat)
    (id : Nat) (w : Nat) :
    gridContains
        (ps.foldl (fun a p => gridModify a z0 fun l => layerInsert l p id) g)
        w = gridContains g w := by
  induction ps generalizing g with
  | nil => rfl
  | cons p ps ih => rw [List.foldl_cons, ih, gridContains_gridModify]

theorem cellGet_addBrick (g : Grid) (e : Nat × Brick) (z : Nat) (p : XYPoint) :
    cellGet (addBrick g e) z p =
      if z ∈ e.2.zList ∧ p ∈ e.2.fpList then some e.1 else cellGet g z p := by
  unfold addBrick
  generalize e.2.zList = zs
  induction zs generalizing g with
  | nil => simp
  | cons z0 zs ih =>
    rw [List.foldl_cons]
    rw [ih]
    rw [cellGet_insFold _ _ _ _ (gridContains_entryOrDefault_self g z0)]
    rw [cellGet_entryOrDefault]
    by_cases hzs : z ∈ zs
    · by_cases hfp : p ∈ e.2.fpList <;>
        simp [hzs, hfp, List.mem_cons]
    · by_cases hz0 : z = z0
      · subst hz0
        by_cases hfp : p ∈ e.2.fpList <;> simp [hzs, hfp, List.mem_cons]
      · simp [hzs, hz0, List.mem_cons]

theorem gridContains_addBrick (g : Grid) (e : Nat × Brick) (w : Nat) :
    gridContains (addBrick g e) w =
      (gridContains g w || decide (w ∈ e.2.zList)) := by
  unfold addBrick
  generalize e.2.zList = zs
  induction zs generalizing g with
  | nil => simp
  | cons z0 zs ih =>
    rw [List.foldl_cons, ih, gridContains_insFold, gridContains_entryOrDefault]
    by_cases hzs : w ∈ zs <;> by_cases hz0 : w = z0 <;>
      simp [hzs, hz0, List.mem_cons]

theorem cellGet_foldl_addBrick (l : List (Nat × Brick)) (g : Grid) (z : Nat)
    (p : XYPoint) :
    cellGet (l.foldl addBrick g) z p =
      match l.reverse.find? fun e => decide (z ∈ e.2.zList ∧ p ∈ e.2.fpList) with
      | some e => some e.1
      | none => cellGet g z p := by
  induction l generalizing g with
  | nil => rfl
  | cons e l ih =>
    rw [List.foldl_cons, ih, List.reverse_cons, List.find?_append]
    cases hf : l.reverse.find? fun e => decide (z ∈ e.2.zList ∧ p ∈ e.2.fpList) with
    | some e' => rfl
    | none =>
      simp only [Option.none_or]
      rw [cellGet_addBrick]
      by_cases hcov : z ∈ e.2.zList ∧ p ∈ e.2.fpList
      · simp [List.find?_cons, hcov]
      · simp [List.find?_cons, hcov]

theorem gridContains_foldl_addBrick (l : List (Nat × Brick)) (g : Grid)
    (w : Nat) :
    gridContains (l.foldl addBrick g) w =
      (gridContains g w || l.any fun e => decide (w ∈ e.2.zList)) := by
  induction l generalizing g with
  | nil => simp
  | cons e l ih =>
    rw [List.foldl_cons, ih, gridContains_addBrick]
    simp [Bool.or_assoc]

/-- When the configured bricks are pairwise disjoint and well formed,
the freshly built grid records exactly each brick's cells under its id. -/
theorem buildGrid_represents (l : List (Nat × Brick))
    (hwf : ∀ e ∈ l, BrickWF e.2) (hdisj : PairwiseDisj l) :
    Represents (buildGrid l) l := by
  intro e he p z hocc
  unfold buildGrid
  rw [cellGet_foldl_addBrick]
  have hmem : z ∈ e.2.zList ∧ p ∈ e.2.fpList := by
    have := (occupies_iff e.2 p z (hwf e he).2.2).mp hocc
    exact ⟨this.2, this.1⟩
  cases hf : l.reverse.find? fun e => decide (z ∈ e.2.zList ∧ p ∈ e.2.fpList) with
  | none =>
    exfalso
    rw [List.find?_eq_none] at hf
    exact hf e (List.mem_reverse.mpr he) (by simp [hmem])
  | some e' =>
    have he'mem : e' ∈ l :=
      List.mem_reverse.mp (List.mem_of_find?_eq_some hf)
    have he'cov : z ∈ e'.2.zList ∧ p ∈ e'.2.fpList := by
      have := List.find?_some hf
      simpa using this
    have he'occ : e'.2.occupies p z := by
      rw [occupies_iff e'.2 p z (hwf e' he'mem).2.2]
      exact ⟨he'cov.2, he'cov.1⟩
    by_cases heq : e = e'
    · subst heq; rfl
    · exfalso
      have hsym : Symmetric fun a b : Nat × Brick => BrickDisj a.2 b.2 :=
        fun a b h => h.symm2
      exact (List.Pairwise.forall hsym hdisj he he'mem heq) p z ⟨hocc, he'occ⟩

/-- The settling loop preserves the grid/configuration coupling: the
falling brick's cells stay recorded under its id, every other brick's
cells stay recorded under its id, and the falling brick stays disjoint
from every other brick. -/
theorem dropGo_inv (id : Nat) (fuel : Nat) (b : Brick) (g : Grid)
    (others : List (Nat × Brick)) (hwfb : BrickWF b)
    (hrepb : ∀ p z, b.occupies p z → cellGet g z p = some id)
    (hrepo : Represents g others)
    (hdisj : ∀ e ∈ others, BrickDisj b e.2)
    (hfuel : b.min_z ≤ fuel) :
    ∃ b' g', dropGo id fuel b g = some (b', g') ∧
      BrickWF b' ∧
      (∀ p z, b'.occupies p z → cellGet g' z p = some id) ∧
      Represents g' others ∧
      (∀ e ∈ others, BrickDisj b' e.2) := by
  induction fuel generalizing b g with
  | zero =>
    have hm : b.min_z ≤ 1 := by omega
    exact ⟨b, g, by simp [dropGo, hm], hwfb, hrepb, hrepo, hdisj⟩
  | succ fuel ih =>
    by_cases hm : b.min_z ≤ 1
    · exact ⟨b, g, by simp [dropGo, hm], hwfb, hrepb, hrepo, hdisj⟩
    · by_cases hblock : blockedAt b
          ((gridGet (entryOrDefault g (b.min_z - 1)) (b.min_z - 1)).getD []) =
          true
      · refine ⟨b, entryOrDefault g (b.min_z - 1), ?_, hwfb, ?_, ?_, hdisj⟩
        · simp only [dropGo]
          rw [if_neg hm, if_pos hblock]
        · intro p z h
          rw [cellGet_entryOrDefault]
          exact hrepb p z h
        · intro e he p z h
          rw [cellGet_entryOrDefault]
          exact hrepo e he p z h
      · have hcont_nz :
            gridContains (entryOrDefault g (b.min_z - 1)) (b.min_z - 1) =
              true := gridContains_entryOrDefault_self g _
        have hoccmax : b.occupies ⟨b.min_x, b.min_y⟩ b.max_z := by
          refine ⟨le_refl _, hwfb.1, le_refl _, hwfb.2.1, ?_, le_refl _⟩
          unfold Brick.max_z
          have := hwfb.2.2
          omega
        have hcellmax : cellGet g b.max_z ⟨b.min_x, b.min_y⟩ = some id :=
          hrepb _ _ hoccmax
        have hcont_max :
            gridContains (entryOrDefault g (b.min_z - 1)) b.max_z = true := by
          rw [gridContains_entryOrDefault]
          have hh : gridContains g b.max_z = true :=
            cellGet_isSome_contains _ _ _ (by rw [hcellmax]; rfl)
          rw [hh]
          rfl
        have hvac : ∀ q ∈ b.fpList, cellGet g (b.min_z - 1) q = none := by
          intro q hq
          have := not_blocked_vacant b (entryOrDefault g (b.min_z - 1))
            (b.min_z - 1) hcont_nz hblock q hq
          rw [cellGet_entryOrDefault] at this
          exact this
        have hg2 : ∀ w q,
            cellGet
                (moveCells (entryOrDefault g (b.min_z - 1)) b id
                  (b.min_z - 1)) w q =
              if q ∈ b.fpList then
                (if w = b.max_z then none
                 else if w = b.min_z - 1 then some id
                 else cellGet g w q)
              else cellGet g w q := by
          intro w q
          rw [cellGet_moveCells]
          by_cases hq : q ∈ b.fpList
          · by_cases hw1 : w = b.max_z
            · simp [hq, hw1]
            · by_cases hw2 : w = b.min_z - 1
              · simp [hq, hw1, hw2, hcont_nz]
              · simp [hq, hw1, hw2, cellGet_entryOrDefault]
          · simp [hq, cellGet_entryOrDefault]
        have hmaxrel : b.max_z = b.min_z - 1 + b.z_range_len := by
          unfold Brick.max_z
          have := hwfb.2.2
          omega
        have hfall_fp : ∀ p, p ∈ b.fall_by_one.fpList ↔ p ∈ b.fpList := by
          intro p
          rw [fpList_fall]
        obtain ⟨b', g', hdrop, hwf', hrepb', hrepo', hdisj'⟩ :=
          ih b.fall_by_one
            (moveCells (entryOrDefault g (b.min_z - 1)) b id (b.min_z - 1))
            hwfb
            (by
              intro p z h
              obtain ⟨h1, h2, h3, h4, h5, h6⟩ := h
              have hfp : p ∈ b.fpList := by
                rw [mem_fpList_iff]
                exact ⟨h1, h2, h3, h4⟩
              rw [hg2 z p, if_pos hfp]
              have hzmax : ¬(z = b.max_z) := by
                revert h6
                show z ≤ b.fall_by_one.max_z → _
                unfold Brick.max_z Brick.fall_by_one
                dsimp only
                have := hwfb.2.2
                omega
              rw [if_neg hzmax]
              by_cases hznz : z = b.min_z - 1
              · rw [if_pos hznz]
              · rw [if_neg hznz]
                apply hrepb
                refine ⟨h1, h2, h3, h4, ?_, ?_⟩
                · have h5' : b.min_z - 1 ≤ z := h5
                  omega
                · have h6' : z ≤ b.fall_by_one.max_z := h6
                  revert h6'
                  unfold Brick.max_z Brick.fall_by_one
                  dsimp only
                  have := hwfb.2.2
                  omega)
            (by
              intro e he p z h
              rw [hg2 z p]
              by_cases hfp : p ∈ b.fpList
              · rw [if_pos hfp]
                by_cases hzmax : z = b.max_z
                · exfalso
                  apply hdisj e he p z
                  constructor
                  · subst hzmax
                    refine ⟨?_, ?_, ?_, ?_, ?_, le_refl _⟩
                    · exact ((mem_fpList_iff b p).mp hfp).1
                    · exact ((mem_fpList_iff b p).mp hfp).2.1
                    · exact ((mem_fpList_iff b p).mp hfp).2.2.1
                    · exact ((mem_fpList_iff b p).mp hfp).2.2.2
                    · unfold Brick.max_z
                      have := hwfb.2.2
                      omega
                  · exact h
                · rw [if_neg hzmax]
                  by_cases hznz : z = b.min_z - 1
                  · exfalso
                    have hcell := hrepo e he p z h
                    rw [hznz] at hcell
                    rw [hvac p hfp] at hcell
                    cases hcell
                  · rw [if_neg hznz]
                    exact hrepo e he p z h
              · rw [if_neg hfp]
                exact hrepo e he p z h)
            (by
              intro e he p z hcon
              obtain ⟨hf, he2⟩ := hcon
              obtain ⟨h1, h2, h3, h4, h5, h6⟩ := hf
              have hfp : p ∈ b.fpList := by
                rw [mem_fpList_iff]
                exact ⟨h1, h2, h3, h4⟩
              by_cases hznz : z = b.min_z - 1
              · have hcell := hrepo e he p z he2
                rw [hznz, hvac p hfp] at hcell
                cases hcell
              · apply hdisj e he p z
                refine ⟨⟨h1, h2, h3, h4, ?_, ?_⟩, he2⟩
                · have h5' : b.min_z - 1 ≤ z := h5
                  omega
                · have h6' : z ≤ b.fall_by_one.max_z := h6
                  revert h6'
                  unfold Brick.max_z Brick.fall_by_one
                  dsimp only
                  have := hwfb.2.2
                  omega)
            (by
              show b.min_z - 1 ≤ fuel
              omega)
        refine ⟨b', g', ?_, hwf', hrepb', hrepo', hdisj'⟩
        simp only [dropGo]
        rw [if_neg hm, if_neg hblock, if_pos hcont_max]
        exact hdrop

theorem parseLinesFrom_wf (ls : List (List Char)) (i : Nat)
    (idm : List (Nat × Brick)) (h : parseLinesFrom i ls = .ok idm) :
    ∀ e ∈ idm, BrickWF e.2 := by
  induction ls generalizing i idm with
  | nil =>
    simp only [parseLinesFrom] at h
    injection h with h2
    subst h2
    intro e he; cases he
  | cons l0 rest ih =>
    simp only [parseLinesFrom] at h
    by_cases hi : i ≤ 65535
    · rw [if_pos hi] at h
      cases hb : Brick.fromChars l0 with
      | error e => rw [hb] at h; cases h
      | ok b =>
        rw [hb] at h
        cases hrest : parseLinesFrom (i + 1) rest with
        | error e => rw [hrest] at h; cases h
        | ok tail =>
          rw [hrest] at h
          have h' : Except.ok ((i, b) :: tail) =
              (Except.ok idm : Except String (List (Nat × Brick))) := h
          injection h' with h2
          subst h2
          intro e he
          rcases List.mem_cons.mp he with rfl | hmem
          · have hn := fromChars_normalized l0 b hb
            exact ⟨hn.1, hn.2.1, hn.2.2.2⟩
          · exact ih (i + 1) tail hrest e hmem
    · rw [if_neg hi] at h; cases h

theorem insertByMinZ_perm (e : Nat × Brick) (l : List (Nat × Brick)) :
    (insertByMinZ e l).Perm (e :: l) := by
  induction l with
  | nil => exact List.Perm.refl _
  | cons x xs ih =>
    unfold insertByMinZ
    by_cases hc : e.2.min_z ≤ x.2.min_z
    · rw [if_pos hc]
    · rw [if_neg hc]
      exact (ih.cons x).trans (List.Perm.swap e x xs)

theorem sortByMinZ_perm (l : List (Nat × Brick)) : (sortByMinZ l).Perm l := by
  induction l with
  | nil => exact List.Perm.refl _
  | cons e t ih =>
    show (insertByMinZ e (sortByMinZ t)).Perm (e :: t)
    exact (insertByMinZ_perm e (sortByMinZ t)).trans (ih.cons e)

/-- The settling pass keeps an initially disjoint, faithfully recorded
configuration disjoint and faithfully recorded. -/
theorem settleAll_inv (l : List (Nat × Brick)) (g : Grid)
    (others : List (Nat × Brick))
    (hwf : ∀ e ∈ l ++ others, BrickWF e.2)
    (hdisj : PairwiseDisj (l ++ others))
    (hrep : Represents g (l ++ others)) :
    ∃ s g₁, settleAll l g = some (s, g₁) ∧
      (∀ e ∈ s ++ others, BrickWF e.2) ∧
      PairwiseDisj (s ++ others) ∧ Represents g₁ (s ++ others) := by
  induction l generalizing g others with
  | nil => exact ⟨[], g, rfl, hwf, hdisj, hrep⟩
  | cons e0 rest ih =>
    obtain ⟨id, b⟩ := e0
    rw [List.cons_append] at hwf hdisj hrep
    have hpc := (List.pairwise_cons.mp hdisj)
    obtain ⟨b', g', hdrop, hwf', hrepb', hrepo', hdisj'⟩ :=
      dropGo_inv id b.min_z b g (rest ++ others)
        (hwf (id, b) (List.mem_cons_self _ _))
        (fun p z h => hrep (id, b) (List.mem_cons_self _ _) p z h)
        (fun e he p z h => hrep e (List.mem_cons_of_mem _ he) p z h)
        hpc.1 (le_refl _)
    have hdrop2 : dropBrick id b g = some (b', g') := hdrop
    have hmem2 : ∀ x : Nat × Brick,
        x ∈ rest ++ (others ++ [(id, b')]) ↔
          x = (id, b') ∨ x ∈ rest ++ others := by
      intro x
      simp only [List.mem_append, List.mem_singleton]
      tauto
    have hperm2 : (rest ++ (others ++ [(id, b')])).Perm
        ((id, b') :: (rest ++ others)) := by
      rw [← List.append_assoc]
      exact List.perm_append_singleton _ _
    obtain ⟨s', g₁, hset, hwf3, hdisj3, hrep3⟩ :=
      ih g' (others ++ [(id, b')])
        (by
          intro e he
          rcases (hmem2 e).mp he with rfl | hmem
          · exact hwf'
          · exact hwf e (List.mem_cons_of_mem _ hmem))
        (by
          refine (List.Perm.pairwise_iff (fun h => BrickDisj.symm2 h) hperm2).mpr ?_
          exact List.pairwise_cons.mpr ⟨fun e he => hdisj' e he, hpc.2⟩)
        (by
          intro e he p z h
          rcases (hmem2 e).mp he with rfl | hmem
          · exact hrepb' p z h
          · exact hrepo' e hmem p z h)
    have hmem3 : ∀ x : Nat × Brick,
        x ∈ ((id, b') :: s') ++ others ↔
          x = (id, b') ∨ x ∈ s' ++ others := by
      intro x
      simp only [List.cons_append, List.mem_cons]
    have hperm3 : (((id, b') :: s') ++ others).Perm
        (s' ++ (others ++ [(id, b')])) := by
      rw [← List.append_assoc, List.cons_append]
      exact ((List.perm_append_singleton (id, b') (s' ++ others)).symm)
    refine ⟨(id, b') :: s', g₁, ?_, ?_, ?_, ?_⟩
    · simp only [settleAll]
      rw [hdrop2]
      simp only [Option.some_bind]
      rw [hset]
      simp only [Option.some_bind]
    · intro e he
      rcases (hmem3 e).mp he with rfl | hmem
      · exact hwf'
      · exact hwf3 e (by
          rcases List.mem_append.mp hmem with h1 | h2
          · exact List.mem_append.mpr (Or.inl h1)
          · exact List.mem_append.mpr (Or.inr (List.mem_append.mpr (Or.inl h2))))
    · exact (List.Perm.pairwise_iff (fun h => BrickDisj.symm2 h) hperm3).mpr hdisj3
    · intro e he p z h
      apply hrep3 e _ p z h
      rcases (hmem3 e).mp he with rfl | hmem
      · exact List.mem_append.mpr (Or.inr (List.mem_append.mpr
          (Or.inr (List.mem_singleton.mpr rfl))))
      · rcases List.mem_append.mp hmem with h1 | h2
        · exact List.mem_append.mpr (Or.inl h1)
        · exact List.mem_append.mpr (Or.inr (List.mem_append.mpr (Or.inl h2)))

/-- C5 (amended): provided the parsed bricks are pairwise cell-disjoint
(which every real puzzle input is), the settling pass never makes two
distinct bricks overlap: after settling, no cell is occupied by two
distinct bricks. -/
theorem settled_bricks_disjoint (s : String) (idm : List (Nat × Brick))
    (hparse : parsePuzzle s = .ok idm) (hdisj : PairwiseDisj idm) :
    ∃ settled g₁,
      settleAll (sortByMinZ idm) (buildGrid idm) = some (settled, g₁) ∧
        PairwiseDisj settled := by
  have hwf : ∀ e ∈ idm, BrickWF e.2 := parseLinesFrom_wf (rustLines s) 0 idm hparse
  have hperm := sortByMinZ_perm idm
  have hwfs : ∀ e ∈ sortByMinZ idm, BrickWF e.2 :=
    fun e he => hwf e (hperm.mem_iff.mp he)
  have hdisjs : PairwiseDisj (sortByMinZ idm) :=
    (List.Perm.pairwise_iff (fun h => BrickDisj.symm2 h) hperm).mpr hdisj
  have hreps : Represents (buildGrid idm) (sortByMinZ idm) :=
    fun e he => buildGrid_represents idm hwf hdisj e (hperm.mem_iff.mp he)
  obtain ⟨ss, g₁, hset, _, hdisj3, _⟩ :=
    settleAll_inv (sortByMinZ idm) (buildGrid idm) []
      (by simpa using hwfs) (by simpa using hdisjs) (by simpa using hreps)
  exact ⟨ss, g₁, hset, by simpa using hdisj3⟩

/-- C5 counterexample: a well-formed input whose two (identical) bricks
still share the cell `(0,0,1)` after the settling pass, refuting the
unconditional claim. -/
theorem settled_bricks_overlap_on_dup :
    parsePuzzle dupInput =
        .ok [(0, ⟨0, 0, 0, 0, 1, 1⟩), (1, ⟨0, 0, 0, 0, 1, 1⟩)] ∧
      (settleAll (sortByMinZ [(0, ⟨0, 0, 0, 0, 1, 1⟩), (1, ⟨0, 0, 0, 0, 1, 1⟩)])
          (buildGrid [(0, ⟨0, 0, 0, 0, 1, 1⟩), (1, ⟨0, 0, 0, 0, 1, 1⟩)])).map
        (fun r => r.1) =
        some [(0, ⟨0, 0, 0, 0, 1, 1⟩), (1, ⟨0, 0, 0, 0, 1, 1⟩)] ∧
      (⟨0, 0, 0, 0, 1, 1⟩ : Brick).occupies ⟨0, 0⟩ 1 :=
  ⟨rfl, by decide, by decide⟩

/-- Witness for the amended C5 on `fgInput`. -/
theorem settled_bricks_disjoint_witness :
    parsePuzzle fgInput = .ok fgBricks ∧ PairwiseDisj fgBricks ∧
      ∃ settled g₁,
        settleAll (sortByMinZ fgBricks) (buildGrid fgBricks) =
            some (settled, g₁) ∧
          PairwiseDisj settled :=
  ⟨rfl, by decide, settled_bricks_disjoint fgInput fgBricks rfl (by decide)⟩

/-! ## Claim C10: determinism of the run across HashMap orders -/

theorem any_congr_mem {α : Type} (l : List α) (f f' : α → Bool)
    (h : ∀ x ∈ l, f x = f' x) : l.any f = l.any f' := by
  induction l with
  | nil => rfl
  | cons x xs ih =>
    simp only [List.any_cons]
    rw [h x (List.mem_cons_self _ _),
      ih fun y hy => h y (List.mem_cons_of_mem _ hy)]

theorem filterMap_congr_mem {α β : Type} (l : List α) (f f' : α → Option β)
    (h : ∀ x ∈ l, f x = f' x) : l.filterMap f = l.filterMap f' := by
  induction l with
  | nil => rfl
  | cons x xs ih =>
    simp only [List.filterMap_cons]
    rw [h x (List.mem_cons_self _ _),
      ih fun y hy => h y (List.mem_cons_of_mem _ hy)]

theorem isEmpty_eq_of_layerGet_eq (l₁ l₂ : Layer)
    (h : ∀ p, layerGet l₁ p = layerGet l₂ p) : l₁.isEmpty = l₂.isEmpty := by
  cases l₁ with
  | nil =>
    cases l₂ with
    | nil => rfl
    | cons e t =>
      have h1 := h e.1
      rw [show layerGet [] e.1 = none from rfl] at h1
      rw [show layerGet (e :: t) e.1 = some e.2 by simp [layerGet]] at h1
      cases h1
  | cons e t =>
    cases l₂ with
    | nil =>
      have h1 := h e.1
      rw [show layerGet (e :: t) e.1 = some e.2 by simp [layerGet]] at h1
      rw [show layerGet [] e.1 = none from rfl] at h1
      cases h1
    | cons e' t' => rfl

theorem layers_get_eq (g₁ g₂ : Grid) (h : GridEquiv g₁ g₂) (z : Nat)
    (l₁ l₂ : Layer) (h₁ : gridGet g₁ z = some l₁) (h₂ : gridGet g₂ z = some l₂) :
    ∀ p, layerGet l₁ p = layerGet l₂ p := by
  intro p
  have hc := h.2 z p
  unfold cellGet at hc
  rw [h₁, h₂] at hc
  exact hc

theorem gridEquiv_entryOrDefault (g₁ g₂ : Grid) (z : Nat)
    (h : GridEquiv g₁ g₂) :
    GridEquiv (entryOrDefault g₁ z) (entryOrDefault g₂ z) := by
  constructor
  · intro w
    rw [gridContains_entryOrDefault, gridContains_entryOrDefault, h.1]
  · intro w p
    rw [cellGet_entryOrDefault, cellGet_entryOrDefault]
    exact h.2 w p

theorem gridEquiv_moveCells (g₁ g₂ : Grid) (b : Brick) (id : Nat) (nz : Nat)
    (h : GridEquiv g₁ g₂) :
    GridEquiv (moveCells g₁ b id nz) (moveCells g₂ b id nz) := by
  constructor
  · intro w
    rw [gridContains_moveCells, gridContains_moveCells, h.1]
  · intro w p
    rw [cellGet_moveCells, cellGet_moveCells, h.1 nz]
    by_cases hp : p ∈ b.fpList
    · by_cases hw1 : w = b.max_z
      · simp [hp, hw1]
      · by_cases hw2 : w = nz
        · simp [hp, hw1, hw2]
        · simp [hp, hw1, hw2, h.2 w p]
    · simp [hp, h.2 w p]

theorem blockedAt_congr (b : Brick) (l₁ l₂ : Layer)
    (h : ∀ p, layerGet l₁ p = layerGet l₂ p) :
    blockedAt b l₁ = blockedAt b l₂ := by
  unfold blockedAt
  rw [isEmpty_eq_of_layerGet_eq l₁ l₂ h,
    any_congr_mem b.fpList _ _ fun p _ => by rw [h p]]

theorem dropGo_congr (id : Nat) (fuel : Nat) (b : Brick) (g₁ g₂ : Grid)
    (h : GridEquiv g₁ g₂) :
    OResultEquiv (dropGo id fuel b g₁) (dropGo id fuel b g₂) := by
  induction fuel generalizing b g₁ g₂ with
  | zero =>
    by_cases hm : b.min_z ≤ 1
    · simp only [dropGo, if_pos hm]
      exact ⟨rfl, h⟩
    · simp only [dropGo, if_neg hm]
      trivial
  | succ fuel ih =>
    by_cases hm : b.min_z ≤ 1
    · simp only [dropGo, if_pos hm]
      exact ⟨rfl, h⟩
    · have h' := gridEquiv_entryOrDefault g₁ g₂ (b.min_z - 1) h
      have hc₁ : gridContains (entryOrDefault g₁ (b.min_z - 1)) (b.min_z - 1) =
          true := gridContains_entryOrDefault_self g₁ _
      have hc₂ : gridContains (entryOrDefault g₂ (b.min_z - 1)) (b.min_z - 1) =
          true := gridContains_entryOrDefault_self g₂ _
      unfold gridContains at hc₁ hc₂
      cases hl₁ : gridGet (entryOrDefault g₁ (b.min_z - 1)) (b.min_z - 1) with
      | none => rw [hl₁] at hc₁; cases hc₁
      | some la₁ =>
        cases hl₂ : gridGet (entryOrDefault g₂ (b.min_z - 1)) (b.min_z - 1) with
        | none => rw [hl₂] at hc₂; cases hc₂
        | some la₂ =>
          have hlayers := layers_get_eq _ _ h' _ la₁ la₂ hl₁ hl₂
          have hb : blockedAt b
              ((gridGet (entryOrDefault g₁ (b.min_z - 1)) (b.min_z - 1)).getD []) =
              blockedAt b
                ((gridGet (entryOrDefault g₂ (b.min_z - 1)) (b.min_z - 1)).getD
                  []) := by
            rw [hl₁, hl₂]
            exact blockedAt_congr b la₁ la₂ hlayers
          simp only [dropGo, if_neg hm]
          by_cases hblock : blockedAt b
              ((gridGet (entryOrDefault g₁ (b.min_z - 1)) (b.min_z - 1)).getD []) =
              true
          · rw [if_pos hblock,
              if_pos (show blockedAt b
                  ((gridGet (entryOrDefault g₂ (b.min_z - 1)) (b.min_z - 1)).getD
                    []) = true from by rw [← hb]; exact hblock)]
            exact ⟨rfl, h'⟩
          · rw [if_neg hblock,
              if_neg (show ¬blockedAt b
                  ((gridGet (entryOrDefault g₂ (b.min_z - 1)) (b.min_z - 1)).getD
                    []) = true from by rw [← hb]; exact hblock)]
            have hcmax :
                gridContains (entryOrDefault g₁ (b.min_z - 1)) b.max_z =
                  gridContains (entryOrDefault g₂ (b.min_z - 1)) b.max_z :=
              h'.1 b.max_z
            by_cases hcm : gridContains (entryOrDefault g₁ (b.min_z - 1))
                b.max_z = true
            · rw [if_pos hcm,
                if_pos (show gridContains (entryOrDefault g₂ (b.min_z - 1))
                    b.max_z = true from by rw [← hcmax]; exact hcm)]
              exact ih b.fall_by_one _ _
                (gridEquiv_moveCells _ _ b id (b.min_z - 1) h')
            · rw [if_neg hcm,
                if_neg (show ¬gridContains (entryOrDefault g₂ (b.min_z - 1))
                    b.max_z = true from by rw [← hcmax]; exact hcm)]
              trivial

theorem dependentIds_congr (b : Brick) (g₁ g₂ : Grid) (h : GridEquiv g₁ g₂) :
    dependentIds b g₁ = dependentIds b g₂ := by
  unfold dependentIds
  have hcont := h.1 (b.max_z + 1)
  cases hl₁ : gridGet g₁ (b.max_z + 1) with
  | none =>
    cases hl₂ : gridGet g₂ (b.max_z + 1) with
    | none => rfl
    | some la₂ =>
      unfold gridContains at hcont
      rw [hl₁, hl₂] at hcont
      cases hcont
  | some la₁ =>
    cases hl₂ : gridGet g₂ (b.max_z + 1) with
    | none =>
      unfold gridContains at hcont
      rw [hl₁, hl₂] at hcont
      cases hcont
    | some la₂ =>
      have hlayers := layers_get_eq _ _ h _ la₁ la₂ hl₁ hl₂
      show (b.fpList.filterMap fun p => layerGet la₁ p).dedup =
        (b.fpList.filterMap fun p => layerGet la₂ p).dedup
      rw [filterMap_congr_mem b.fpList _ _ fun p _ => hlayers p]

theorem checkDisintegrate_congr (b : Brick) (g₁ g₂ : Grid)
    (idm : List (Nat × Brick)) (h : GridEquiv g₁ g₂) :
    checkDisintegrate b g₁ idm = checkDisintegrate b g₂ idm := by
  unfold checkDisintegrate
  have hdeps := dependentIds_congr b g₁ g₂ h
  have hcont := h.1 (b.max_z + 1)
  cases hl₁ : gridGet g₁ (b.max_z + 1) with
  | none =>
    cases hl₂ : gridGet g₂ (b.max_z + 1) with
    | none => rfl
    | some la₂ =>
      unfold gridContains at hcont
      rw [hl₁, hl₂] at hcont
      cases hcont
  | some la₁ =>
    cases hl₂ : gridGet g₂ (b.max_z + 1) with
    | none =>
      unfold gridContains at hcont
      rw [hl₁, hl₂] at hcont
      cases hcont
    | some la₂ => rw [hdeps]

theorem solveLoop_congr (l : List (Nat × Brick)) (g₁ g₂ : Grid)
    (idm : List (Nat × Brick)) (h : GridEquiv g₁ g₂) :
    solveLoop l g₁ idm = solveLoop l g₂ idm := by
  induction l generalizing g₁ g₂ with
  | nil => rfl
  | cons e rest ih =>
    obtain ⟨id, b⟩ := e
    simp only [solveLoop]
    have hdc := dropGo_congr id b.min_z b g₁ g₂ h
    cases hd₁ : dropBrick id b g₁ with
    | none =>
      have hd₁g : dropGo id b.min_z b g₁ = none := hd₁
      rw [hd₁g] at hdc
      have hd₂ : dropBrick id b g₂ = none := by
        unfold dropBrick
        cases hd₂g : dropGo id b.min_z b g₂ with
        | none => rfl
        | some r => rw [hd₂g] at hdc; exact hdc.elim
      rw [hd₂]
    | some r₁ =>
      have hd₁g : dropGo id b.min_z b g₁ = some r₁ := hd₁
      rw [hd₁g] at hdc
      cases hd₂g : dropGo id b.min_z b g₂ with
      | none => rw [hd₂g] at hdc; exact hdc.elim
      | some r₂ =>
        rw [hd₂g] at hdc
        obtain ⟨hb, hg⟩ := hdc
        have hd₂ : dropBrick id b g₂ = some r₂ := hd₂g
        rw [hd₂]
        simp only [Option.some_bind]
        rw [← hb, checkDisintegrate_congr r₁.1 r₁.2 r₂.2 idm hg,
          ih r₁.2 r₂.2 hg]

/-- In a pairwise-disjoint, well-formed configuration at most one entry
covers any given cell. -/
theorem cover_unique (l : List (Nat × Brick)) (z : Nat) (p : XYPoint)
    (hwf : ∀ e ∈ l, BrickWF e.2) (hdisj : PairwiseDisj l)
    (e₁ e₂ : Nat × Brick) (h₁ : e₁ ∈ l) (h₂ : e₂ ∈ l)
    (hc₁ : z ∈ e₁.2.zList ∧ p ∈ e₁.2.fpList)
    (hc₂ : z ∈ e₂.2.zList ∧ p ∈ e₂.2.fpList) : e₁ = e₂ := by
  by_contra hne
  have ho₁ : e₁.2.occupies p z :=
    (occupies_iff e₁.2 p z (hwf e₁ h₁).2.2).mpr ⟨hc₁.2, hc₁.1⟩
  have ho₂ : e₂.2.occupies p z :=
    (occupies_iff e₂.2 p z (hwf e₂ h₂).2.2).mpr ⟨hc₂.2, hc₂.1⟩
  have hsym : Symmetric fun a b : Nat × Brick => BrickDisj a.2 b.2 :=
    fun a b hab => hab.symm2
  exact (List.Pairwise.forall hsym hdisj h₁ h₂ hne) p z ⟨ho₁, ho₂⟩

/-- Building the grid from any two `HashMap` iteration orders of a
disjoint, well-formed configuration yields observationally equal grids. -/
theorem buildGrid_perm_equiv (l₁ l₂ : List (Nat × Brick))
    (hperm : l₁.Perm l₂) (hwf : ∀ e ∈ l₁, BrickWF e.2)
    (hdisj : PairwiseDisj l₁) :
    GridEquiv (buildGrid l₁) (buildGrid l₂) := by
  constructor
  · intro z
    unfold buildGrid
    rw [gridContains_foldl_addBrick, gridContains_foldl_addBrick]
    congr 1
    rw [Bool.eq_iff_iff]
    simp only [List.any_eq_true]
    constructor
    · rintro ⟨x, hx, hfx⟩; exact ⟨x, hperm.mem_iff.mp hx, hfx⟩
    · rintro ⟨x, hx, hfx⟩; exact ⟨x, hperm.mem_iff.mpr hx, hfx⟩
  · intro z p
    unfold buildGrid
    rw [cellGet_foldl_addBrick, cellGet_foldl_addBrick]
    cases hf₁ : l₁.reverse.find? fun e =>
        decide (z ∈ e.2.zList ∧ p ∈ e.2.fpList) with
    | none =>
      cases hf₂ : l₂.reverse.find? fun e =>
          decide (z ∈ e.2.zList ∧ p ∈ e.2.fpList) with
      | none => rfl
      | some e₂ =>
        exfalso
        have hmem : e₂ ∈ l₁ := hperm.mem_iff.mpr
          (List.mem_reverse.mp (List.mem_of_find?_eq_some hf₂))
        have hcov : z ∈ e₂.2.zList ∧ p ∈ e₂.2.fpList := by
          have := List.find?_some hf₂; simpa using this
        rw [List.find?_eq_none] at hf₁
        exact hf₁ e₂ (List.mem_reverse.mpr hmem) (by simp [hcov])
    | some e₁ =>
      cases hf₂ : l₂.reverse.find? fun e =>
          decide (z ∈ e.2.zList ∧ p ∈ e.2.fpList) with
      | none =>
        exfalso
        have hmem : e₁ ∈ l₂ := hperm.mem_iff.mp
          (List.mem_reverse.mp (List.mem_of_find?_eq_some hf₁))
        have hcov : z ∈ e₁.2.zList ∧ p ∈ e₁.2.fpList := by
          have := List.find?_some hf₁; simpa using this
        rw [List.find?_eq_none] at hf₂
        exact hf₂ e₁ (List.mem_reverse.mpr hmem) (by simp [hcov])
      | some e₂ =>
        have hm₁ : e₁ ∈ l₁ :=
          List.mem_reverse.mp (List.mem_of_find?_eq_some hf₁)
        have hm₂ : e₂ ∈ l₁ := hperm.mem_iff.mpr
          (List.mem_reverse.mp (List.mem_of_find?_eq_some hf₂))
        have hcov₁ : z ∈ e₁.2.zList ∧ p ∈ e₁.2.fpList := by
          have := List.find?_some hf₁; simpa using this
        have hcov₂ : z ∈ e₂.2.zList ∧ p ∈ e₂.2.fpList := by
          have := List.find?_some hf₂; simpa using this
        rw [cover_unique l₁ z p hwf hdisj e₁ e₂ hm₁ hm₂ hcov₁ hcov₂]

/-- Pairwise-distinct `min_z` keys leave `sort_unstable_by_key` no
freedom: any two sorted permutations of the brick list coincide. -/
theorem sorted_perm_unique (idm l₁ l₂ : List (Nat × Brick))
    (hne : idm.Pairwise fun a b => a.2.min_z ≠ b.2.min_z)
    (hp₁ : l₁.Perm idm) (hp₂ : l₂.Perm idm)
    (hs₁ : SortedByMinZ l₁) (hs₂ : SortedByMinZ l₂) : l₁ = l₂ := by
  haveI : IsAntisymm (Nat × Brick) (fun a b => a.2.min_z < b.2.min_z) :=
    ⟨fun a b hab hba => absurd hba (Nat.lt_asymm hab)⟩
  have hne₁ : l₁.Pairwise fun a b => a.2.min_z ≠ b.2.min_z :=
    (hp₁.pairwise_iff fun hab => hab.symm).mpr hne
  have hne₂ : l₂.Pairwise fun a b => a.2.min_z ≠ b.2.min_z :=
    (hp₂.pairwise_iff fun hab => hab.symm).mpr hne
  have hs₁' : l₁.Pairwise fun a b => a.2.min_z ≤ b.2.min_z := hs₁
  have hs₂' : l₂.Pairwise fun a b => a.2.min_z ≤ b.2.min_z := hs₂
  have hlt₁ : l₁.Pairwise fun a b => a.2.min_z < b.2.min_z :=
    (List.Pairwise.and hs₁' hne₁).imp fun hab => lt_of_le_of_ne hab.1 hab.2
  have hlt₂ : l₂.Pairwise fun a b => a.2.min_z < b.2.min_z :=
    (List.Pairwise.and hs₂' hne₂).imp fun hab => lt_of_le_of_ne hab.1 hab.2
  exact List.eq_of_perm_of_sorted (hp₁.trans hp₂.symm) hlt₁ hlt₂

/-- C10 (amended): the run is deterministic provided the parsed bricks
are pairwise cell-disjoint and have pairwise distinct `min_z`.  Every
legal `sort_unstable_by_key` outcome (a sorted permutation of the parsed
bricks) combined with every `HashMap` iteration order used to build the
grid (any permutation of the parsed bricks) produces the same answer. -/
theorem solve_deterministic (s : String) (idm : List (Nat × Brick))
    (hparse : parsePuzzle s = .ok idm)
    (hdisj : PairwiseDisj idm)
    (hne : idm.Pairwise fun a b => a.2.min_z ≠ b.2.min_z)
    (l₁ l₂ p₁ p₂ : List (Nat × Brick))
    (hl₁ : l₁.Perm idm) (hl₂ : l₂.Perm idm)
    (hs₁ : SortedByMinZ l₁) (hs₂ : SortedByMinZ l₂)
    (hb₁ : p₁.Perm idm) (hb₂ : p₂.Perm idm) :
    solveLoop l₁ (buildGrid p₁) idm = solveLoop l₂ (buildGrid p₂) idm := by
  have hwf : ∀ e ∈ idm, BrickWF e.2 :=
    parseLinesFrom_wf (rustLines s) 0 idm hparse
  have hl : l₁ = l₂ := sorted_perm_unique idm l₁ l₂ hne hl₁ hl₂ hs₁ hs₂
  subst hl
  have hwf₁ : ∀ e ∈ p₁, BrickWF e.2 := fun e he => hwf e (hb₁.mem_iff.mp he)
  have hdisj₁ : PairwiseDisj p₁ :=
    (hb₁.pairwise_iff fun hab => hab.symm2).mpr hdisj
  exact solveLoop_congr l₁ _ _ idm
    (buildGrid_perm_equiv p₁ p₂ (hb₁.trans hb₂.symm) hwf₁ hdisj₁)

/-- C10 counterexample: `c10Input` parses to three bricks with the first
two tied on `min_z`.  Both tie orders are sorted permutations of the
parsed bricks (legal `sort_unstable_by_key` outcomes), yet one run aborts
(`none`) while the other prints 3. -/
theorem solve_not_deterministic :
    parsePuzzle c10Input = .ok c10Bricks ∧
      (sortByMinZ c10Bricks).Perm c10Bricks ∧
      SortedByMinZ (sortByMinZ c10Bricks) ∧
      c10Swapped.Perm c10Bricks ∧
      SortedByMinZ c10Swapped ∧
      solveLoop (sortByMinZ c10Bricks) (buildGrid c10Bricks) c10Bricks =
        none ∧
      solveLoop c10Swapped (buildGrid c10Bricks) c10Bricks = some 3 :=
  ⟨rfl, sortByMinZ_perm c10Bricks, by decide, by decide, by decide,
    by decide, by decide⟩

/-- Witness for the amended C10 on `fgInput` (distinct `min_z`, disjoint
bricks): two different grid-build orders give the same answer. -/
theorem solve_deterministic_witness :
    solveLoop (sortByMinZ fgBricks) (buildGrid fgBricks) fgBricks =
      solveLoop (sortByMinZ fgBricks) (buildGrid fgBricks.reverse)
        fgBricks :=
  solve_deterministic fgInput fgBricks rfl (by decide) (by decide)
    (sortByMinZ fgBricks) (sortByMinZ fgBricks) fgBricks fgBricks.reverse
    (sortByMinZ_perm fgBricks) (sortByMinZ_perm fgBricks)
    (by decide) (by decide)
    (List.Perm.refl fgBricks) (List.reverse_perm fgBricks)

end Day22
